import Mathlib

/-!
# Verification of the pygdsm sky-model / observer core

A shallow embedding of the pygdsm repository (gsm08.py, gsm16.py, lfsm.py,
haslam.py, base_observer.py, utils.py) in Lean 4, together with theorems
settling the frozen claims about the natural-language specification.

Modelling conventions:
* numpy floating-point arithmetic is modelled by exact rational arithmetic (ℚ);
* external numerical routines from scipy / healpy / numpy whose values the
  claims do not depend on (`np.log`, `np.exp`, the `interp1d`/`pchip`
  interpolant constructors, healpy resampling/reordering, `np.power`) are
  modelled as explicit function parameters gathered in a `NumEnv` record:
  every theorem quantifies over them, and witnesses instantiate them with
  concrete functions;
* a healpix map is a `List ℚ` of per-pixel values; stacked per-frequency maps
  are a `List (List ℚ)`;
* Python exceptions are modelled with `Except String`.
-/

namespace PyGDSM

/-- Frequency unit accepted by every model constructor (astropy unit string). -/
inductive FreqUnit where
  | hz
  | mhz
  | ghz
deriving DecidableEq, Repr

/-- Conversion factor to MHz: `(np.array(freqs) * units.Unit(freq_unit)).to('MHz').value`. -/
def FreqUnit.toMHz : FreqUnit → ℚ
  | .hz => 1 / 1000000
  | .mhz => 1
  | .ghz => 1000

/-- Conversion factor to GHz, used by GSM2016. -/
def FreqUnit.toGHz : FreqUnit → ℚ
  | .hz => 1 / 1000000000
  | .mhz => 1 / 1000
  | .ghz => 1

/-- The `freqs` argument of `generate`: a genuine Python scalar, or a sequence.
`np.array` of a scalar is a 0-dim array, whose `.value` is a float again, so the
source code distinguishes exactly these two cases. -/
inductive FreqsIn where
  | scalar (f : ℚ)
  | vector (fs : List ℚ)
deriving DecidableEq, Repr

/-- The frequency list actually iterated over (`freqs_mhz` after the
`isinstance(..., float)` wrapping: a scalar becomes a 1-element array). -/
def FreqsIn.toList : FreqsIn → List ℚ
  | .scalar f => [f]
  | .vector fs => fs

/-- Result array of `generate`: either squeezed to shape `(npix,)` (`flat`) or
kept with a leading frequency axis, shape `(k, npix)` (`stacked`). -/
inductive GenOut where
  | flat (m : List ℚ)
  | stacked (ms : List (List ℚ))

/-- Rows of the output, one per frequency (a flat map is one row). -/
def GenOut.rows : GenOut → List (List ℚ)
  | .flat m => [m]
  | .stacked ms => ms

/-- Whether the output kept its leading frequency axis (2-dim array). -/
def GenOut.isStacked : GenOut → Bool
  | .flat _ => false
  | .stacked _ => true

/-- Elementwise map over the output (numpy broadcasting of `+= c` etc.). -/
def GenOut.emap (g : ℚ → ℚ) : GenOut → GenOut
  | .flat m => .flat (m.map g)
  | .stacked ms => .stacked (ms.map (List.map g))

/-- Value at frequency row `f` and pixel `p` of the output. -/
def GenOut.valueAt (o : GenOut) (f p : ℕ) : ℚ :=
  (o.rows.getD f []).getD p 0

/-- `np.min` of a nonempty array (the empty case is an error in numpy and is
rejected separately by the callers below). -/
def npMin : List ℚ → ℚ
  | [] => 0
  | f :: fs => fs.foldl min f

/-- `np.max` of a nonempty array. -/
def npMax : List ℚ → ℚ
  | [] => 0
  | f :: fs => fs.foldl max f

/-- Whether a call returned normally (`Except.ok`) rather than raising. -/
def isOk {α : Type} : Except String α → Bool
  | .ok _ => true
  | .error _ => false

/-- Dot product over the component axis (`np.einsum` contraction / `np.dot`). -/
def dotQ (xs ys : List ℚ) : ℚ :=
  (List.zipWith (· * ·) xs ys).sum

/-- Column `j` of a 2-dim table stored as a list of rows. -/
def col (j : ℕ) (table : List (List ℚ)) : List ℚ :=
  table.map (fun r => r.getD j 0)

/-- External numerical routines used by the models.  Each field is the
exact-real model of a numpy/scipy/healpy function; the claims under
verification do not depend on their values, so they are kept abstract and
quantified over. -/
structure NumEnv where
  /-- `np.log` -/
  ln : ℚ → ℚ
  /-- `np.exp` -/
  exp : ℚ → ℚ
  /-- `scipy.interpolate.interp1d(xs, ys, kind='cubic')` as an evaluator -/
  interpCubic : List ℚ → List ℚ → ℚ → ℚ
  /-- `scipy.interpolate.pchip(xs, ys)` as an evaluator -/
  interpPchip : List ℚ → List ℚ → ℚ → ℚ
  /-- `scipy.interpolate.interp1d(xs, ys, kind='slinear')` as an evaluator -/
  interpSlinear : List ℚ → List ℚ → ℚ → ℚ
  /-- `rotate_equatorial_to_galactic` (healpy rotator + `get_interp_val`) -/
  rotCG : List ℚ → List ℚ
  /-- `hp.pixelfunc.reorder(..., n2r=True)` -/
  reorderN2R : List ℚ → List ℚ
  /-- numpy float `**` (power) -/
  npPow : ℚ → ℚ → ℚ

/-- CMB temperature constant `T_CMB = 2.725` (K), shared by all model files. -/
def T_CMB : ℚ := 2.725

/-! ## GSM2008 (`gsm08.py`) -/

namespace GSM08

/-- Valid `basemap` choices of `GlobalSkyModel`. -/
inductive Basemap where
  | fivedeg
  | haslam
  | wmap
deriving DecidableEq, Repr

/-- Valid `interpolation` choices. -/
inductive Interp where
  | cubic
  | pchip
deriving DecidableEq, Repr

/-- State of a `GlobalSkyModel` instance.  The `h5` fields model the immutable
HDF5 archive contents (one PCA component-map table per basemap key, and the
spectral `components` table whose rows are `(freq_MHz, scale, w1, w2, w3)`). -/
structure State where
  freq_unit : FreqUnit
  basemap : Basemap
  interpolation_method : Interp
  include_cmb : Bool
  h5_component_maps : Basemap → List (List ℚ)
  h5_components : List (List ℚ)
  pca_map_data : List (List ℚ)
  interp_comps : (ℚ → ℚ) × (ℚ → ℚ) × (ℚ → ℚ) × (ℚ → ℚ)
  generated_map_data : Option GenOut
  generated_map_freqs : Option FreqsIn

/-- The interpolant constructor selected by `interpolation_method`. -/
def build (env : NumEnv) : Interp → List ℚ → List ℚ → ℚ → ℚ
  | .cubic => env.interpCubic
  | .pchip => env.interpPchip

/-- `GlobalSkyModel.update_interpolants`: reload the PCA map selected by
`basemap` and rebuild the four interpolants (scale in log-space, plus the
three component weights) over log-frequency. -/
def update_interpolants (env : NumEnv) (m : State) : State :=
  let pca_map_data := m.h5_component_maps m.basemap
  let pca_freqs_mhz := col 0 m.h5_components
  let pca_scaling := col 1 m.h5_components
  let ln_pca_freqs := pca_freqs_mhz.map env.ln
  let b := build env m.interpolation_method
  { m with
    pca_map_data := pca_map_data
    interp_comps :=
      (b ln_pca_freqs (pca_scaling.map env.ln),
       b ln_pca_freqs (col 2 m.h5_components),
       b ln_pca_freqs (col 3 m.h5_components),
       b ln_pca_freqs (col 4 m.h5_components)) }

/-- `GlobalSkyModel.__init__` (the archive contents are passed explicitly). -/
def init (env : NumEnv) (freq_unit : FreqUnit) (basemap : Basemap)
    (interpolation : Interp) (include_cmb : Bool)
    (h5maps : Basemap → List (List ℚ)) (h5comps : List (List ℚ)) : State :=
  update_interpolants env
    { freq_unit := freq_unit
      basemap := basemap
      interpolation_method := interpolation
      include_cmb := include_cmb
      h5_component_maps := h5maps
      h5_components := h5comps
      pca_map_data := []
      interp_comps := (fun _ => 0, fun _ => 0, fun _ => 0, fun _ => 0)
      generated_map_data := none
      generated_map_freqs := none }

/-- The synthesized (pre-CMB) map row for one frequency, already in MHz:
`map_out[f, p] = exp(spl_scaling(ln f)) * sum_c spl_c(ln f) * pca_map_data[p, c]`
(the `np.einsum('cf,pc,f->fp', comps, pca_map_data, scaling)` contraction). -/
def synthRow (env : NumEnv) (m : State) (fmhz : ℚ) : List ℚ :=
  let lf := env.ln fmhz
  let scal := env.exp (m.interp_comps.1 lf)
  m.pca_map_data.map (fun prow =>
    scal * dotQ [m.interp_comps.2.1 lf, m.interp_comps.2.2.1 lf, m.interp_comps.2.2.2 lf] prow)

/-- `GlobalSkyModel.generate`.  Returns the updated instance state and the
returned map; a failed bounds check raises (`Except.error`). -/
def generate (env : NumEnv) (m : State) (freqs : FreqsIn) :
    Except String (State × GenOut) :=
  let fl := freqs.toList.map (· * m.freq_unit.toMHz)
  if fl.isEmpty then
    .error "zero-size array reduction"
  else if npMin fl < 10 ∨ 94000 < npMax fl then
    .error "Frequency values lie outside 10 MHz < f < 94 GHz"
  else
    let rows := fl.map (synthRow env m)
    let rows := if m.include_cmb then rows.map (List.map (· + T_CMB)) else rows
    let out := if fl.length = 1 then GenOut.flat (rows.headD []) else GenOut.stacked rows
    .ok ({ m with generated_map_data := some out, generated_map_freqs := some freqs }, out)

/-- `GlobalSkyModel.set_basemap`: mutate the configuration, rebuild the
interpolants, and re-run `generate` with the last-used frequencies if a map
had already been generated. -/
def set_basemap (env : NumEnv) (m : State) (new_basemap : Basemap) :
    Except String State :=
  let m1 := update_interpolants env { m with basemap := new_basemap }
  match m1.generated_map_freqs with
  | none => .ok m1
  | some fqs => (generate env m1 fqs).map Prod.fst

/-- `GlobalSkyModel.set_interpolation_method`, same shape as `set_basemap`. -/
def set_interpolation_method (env : NumEnv) (m : State) (new_method : Interp) :
    Except String State :=
  let m1 := update_interpolants env { m with interpolation_method := new_method }
  match m1.generated_map_freqs with
  | none => .ok m1
  | some fqs => (generate env m1 fqs).map Prod.fst

end GSM08

/-! ## LFSM (`lfsm.py`) -/

namespace LFSM

/-- State of a `LowFrequencySkyModel` instance.  `pca_map` is the
`(pixel, component)` table `lfsm_component_maps_3.0deg.dat`; `pca_components`
has rows `(freq_MHz, sigma, w_1 .. w_N)`. -/
structure State where
  freq_unit : FreqUnit
  include_cmb : Bool
  pca_map : List (List ℚ)
  pca_components : List (List ℚ)
  scaleFunc : ℚ → ℚ
  compFuncs : List (ℚ → ℚ)
  generated_map_data : Option GenOut
  generated_map_freqs : Option FreqsIn

/-- `LowFrequencySkyModel.__init__`: a scale interpolant over
`(ln freqs, ln sigmas)` with `kind='slinear'` and one cubic interpolant per
weight column (`comps.shape[1]` of them). -/
def init (env : NumEnv) (freq_unit : FreqUnit) (include_cmb : Bool)
    (pca_map pca_components : List (List ℚ)) : State :=
  let freqs := col 0 pca_components
  let sigmas := col 1 pca_components
  let lnfreqs := freqs.map env.ln
  let ncomp := (pca_components.headD []).length - 2
  { freq_unit := freq_unit
    include_cmb := include_cmb
    pca_map := pca_map
    pca_components := pca_components
    scaleFunc := env.interpSlinear lnfreqs (sigmas.map env.ln)
    compFuncs := (List.range ncomp).map
      (fun i => env.interpCubic lnfreqs (col (2 + i) pca_components))
    generated_map_data := none
    generated_map_freqs := none }

/-- The synthesized map for one frequency (the body of the `for ff` loop
before the coordinate rotation):
`map_out[ff, p] = (sum_i compFuncs_i(ln f) * pca_map[p, i]) * exp(scaleFunc(ln f))`. -/
def synthRow (env : NumEnv) (m : State) (fmhz : ℚ) : List ℚ :=
  let weights := m.compFuncs.map (fun cf => cf (env.ln fmhz))
  (m.pca_map.map (fun prow => dotQ weights prow)).map
    (· * env.exp (m.scaleFunc (env.ln fmhz)))

/-- `LowFrequencySkyModel.generate`: bounds check, per-frequency synthesis,
equatorial→galactic resampling, squeeze, and T_CMB subtraction when the CMB
is not included. -/
def generate (env : NumEnv) (m : State) (freqs : FreqsIn) :
    Except String (State × GenOut) :=
  let fl := freqs.toList.map (· * m.freq_unit.toMHz)
  if fl.isEmpty then
    .error "zero-size array reduction"
  else if npMin fl < 10 ∨ 408 < npMax fl then
    .error "Frequency values lie outside 10 MHz < f < 408 MHz"
  else
    let rows := fl.map (fun f => env.rotCG (synthRow env m f))
    let out := if fl.length = 1 then GenOut.flat (rows.headD []) else GenOut.stacked rows
    let out := if m.include_cmb = false then out.emap (· - T_CMB) else out
    .ok ({ m with generated_map_data := some out, generated_map_freqs := some freqs }, out)

end LFSM

/-! ## GSM2016 (`gsm16.py`) -/

namespace GSM16

/-- Valid `data_unit` choices of `GlobalSkyModel16`. -/
inductive DataUnit where
  | mjysr
  | tcmb
  | trj
deriving DecidableEq, Repr

/-- Physical constants of `gsm16.py` (exact rationals for the float literals). -/
def kB : ℚ := 1.38065e-23

/-- Speed of light constant of `gsm16.py`. -/
def C : ℚ := 2.99792e8

/-- Planck constant of `gsm16.py`. -/
def hP : ℚ := 6.62607e-34

/-- CMB temperature constant `T` of `gsm16.py`. -/
def T : ℚ := 2.725

/-- `hoverk = h / kB`. -/
def hoverk : ℚ := hP / kB

/-- `K_CMB2MJysr(K_CMB, nu)`: thermodynamic temperature to MJy/sr at `nu` Hz.
Linear in its first argument. -/
def K_CMB2MJysr (env : NumEnv) (K_CMB nu : ℚ) : ℚ :=
  let B_nu := 2 * (hP * nu) * (nu / C) ^ 2 / (env.exp (hoverk * nu / T) - 1)
  let conversion_factor := (B_nu * C / nu / T) ^ 2 / 2 * env.exp (hoverk * nu / T) / kB
  K_CMB * conversion_factor * 1e20

/-- `K_RJ2MJysr(K_RJ, nu)`: Rayleigh-Jeans temperature to MJy/sr at `nu` Hz. -/
def K_RJ2MJysr (K_RJ nu : ℚ) : ℚ :=
  K_RJ * (2 * (nu / C) ^ 2 * kB) * 1e20

/-- State of a `GlobalSkyModel16` instance.  `map_ni` is the
`(component, pixel)` array of the six basis maps; `spec_nf` has row 0 the
anchor frequencies (GHz), row 1 the scaling, rows 2.. the component weights. -/
structure State where
  freq_unit : FreqUnit
  data_unit : DataUnit
  interpolation_method : GSM08.Interp
  include_cmb : Bool
  map_ni : List (List ℚ)
  spec_nf : List (List ℚ)
  interp_comps : Option (List (ℚ → ℚ))
  generated_map_data : Option GenOut
  generated_map_freqs : Option FreqsIn

/-- The per-frequency output unit conversion factor applied at the end of
`generate` (frequency `f` in GHz). -/
def conversion (env : NumEnv) (m : State) (f : ℚ) : ℚ :=
  match m.data_unit with
  | .tcmb => 1 / K_CMB2MJysr env 1 (1e9 * f)
  | .trj => 1 / K_RJ2MJysr 1 (1e9 * f)
  | .mjysr => 1

/-- The six weight interpolants plus the scale interpolant, rebuilt inside
every `generate` call from `spec_nf` (`spl_scaling, spl1..spl6`). -/
def bundle (env : NumEnv) (m : State) : (ℚ → ℚ) × List (ℚ → ℚ) :=
  let pca_freqs_ghz := m.spec_nf.getD 0 []
  let pca_scaling := m.spec_nf.getD 1 []
  let ln_pca_freqs := pca_freqs_ghz.map env.ln
  let b := GSM08.build env m.interpolation_method
  (b ln_pca_freqs (pca_scaling.map env.ln),
   (List.range 6).map (fun c => b ln_pca_freqs (m.spec_nf.getD (2 + c) [])))

/-- The synthesized (native MJy/sr, NEST-ordered) map row for one frequency in
GHz: `output[f, p] = exp(spl_scaling(ln f)) * sum_c spl_c(ln f) * map_ni[c, p]`
(`np.einsum('cf,pc,f->fp', comps, map_ni.T, scaling)`). -/
def synthRow (env : NumEnv) (m : State) (fghz : ℚ) : List ℚ :=
  let lf := env.ln fghz
  let spls := (bundle env m).2
  let scal := env.exp ((bundle env m).1 lf)
  let npix := (m.map_ni.headD []).length
  (List.range npix).map (fun p =>
    scal * ((List.range 6).map (fun c => (spls.getD c (fun _ => 0)) lf *
      ((m.map_ni.getD c []).getD p 0))).sum)

/-- `GlobalSkyModel16.generate`: bounds check in GHz, synthesis, NEST→RING
reorder, optional CMB addition (in native MJy/sr), unit conversion, squeeze. -/
def generate (env : NumEnv) (m : State) (freqs : FreqsIn) :
    Except String (State × GenOut) :=
  let fl := freqs.toList.map (· * m.freq_unit.toGHz)
  if fl.isEmpty then
    .error "zero-size array reduction"
  else if npMin fl < 1 / 100 ∨ 5000 < npMax fl then
    .error "Frequency values lie outside 10 MHz < f < 5 THz: %s"
  else
    let rows := fl.map (fun f =>
      let row1 := env.reorderN2R (synthRow env m f)
      let row2 := if m.include_cmb then row1.map (· + K_CMB2MJysr env T (1e9 * f)) else row1
      row2.map (· * conversion env m f))
    let out := if fl.length = 1 then GenOut.flat (rows.headD []) else GenOut.stacked rows
    .ok ({ m with
            interp_comps := some ((bundle env m).1 :: (bundle env m).2)
            generated_map_data := some out
            generated_map_freqs := some freqs }, out)

end GSM16

/-! ## Haslam (`haslam.py`) -/

namespace Haslam

/-- State of a `HaslamSkyModel` instance.  `data` is the loaded Haslam 408 MHz
map with `T_CMB` already subtracted (as done in `__init__`). -/
structure State where
  freq_unit : FreqUnit
  spectral_index : ℚ
  include_cmb : Bool
  data : List ℚ
  generated_map_data : Option GenOut
  generated_map_freqs : Option FreqsIn

/-- `HaslamSkyModel.generate`: no frequency-bounds validation at all; the map
is `np.outer((freqs_mhz / 408.0) ** spectral_index, self.data).squeeze()`,
plus `T_CMB` if the CMB is included. -/
def generate (env : NumEnv) (m : State) (freqs : FreqsIn) :
    Except String (State × GenOut) :=
  let fl := freqs.toList.map (· * m.freq_unit.toMHz)
  let rows := fl.map (fun f => m.data.map (fun d => env.npPow (f / 408) m.spectral_index * d))
  let out := if fl.length = 1 then GenOut.flat (rows.headD []) else GenOut.stacked rows
  let out := if m.include_cmb then out.emap (· + T_CMB) else out
  .ok ({ m with generated_map_data := some out, generated_map_freqs := some freqs }, out)

end Haslam

/-! ## BaseObserver (`base_observer.py`)

The observer's expensive geometry (zenith RA/Dec, the galactic→zenith-centred
pixel remap `_pix0`, the `query_disc` horizon mask, the per-pixel RA/Dec) is
computed by healpy/pyephem/astropy; those computations depend only on the
observation time and the stored horizon elevation, and are modelled as
abstract function parameters in `ObsEnv`.  `astropy.time.Time` values are
modelled as rational timestamps; `np.isclose` on frequencies is modelled as
exact equality (its float tolerance has no exact-real counterpart). -/

namespace Observer

/-- The `horizon_elevation` argument: pyephem's convention is that a bare
number is radians and a string is degrees.  `str d` models the string whose
parsed numeric value is `d` degrees (a nonempty string, hence truthy). -/
inductive HorizonIn where
  | num (x : ℚ)
  | str (d : ℚ)
deriving DecidableEq, Repr

/-- External geometry routines of the recomputation block, plus pyephem's
string-degrees parser.  `pix0Of t` is the integer remap array computed from
the rotation at time `t`; `maskOf t h` the horizon mask from `query_disc`
with radius `pi/2 - h`; `raOf`/`decOf` the derived per-pixel RA/Dec views. -/
structure ObsEnv where
  pix0Of : ℚ → ℕ → ℕ
  maskOf : ℚ → ℚ → ℕ → Bool
  raOf : ℚ → ℕ → ℚ
  decOf : ℚ → ℕ → ℚ
  /-- `ephem.degrees` applied to a (degree-)string: degrees→radians. -/
  degStr : ℚ → ℚ

/-- `ephem.degrees(horizon_elevation or 0.0)`: `None` and the falsy float
`0.0` give the zero angle; a number is taken as radians; a (truthy) string is
parsed as degrees. -/
def effHorizon (env : ObsEnv) : Option HorizonIn → ℚ
  | none => 0
  | some (.num x) => if x = 0 then 0 else x
  | some (.str d) => env.degStr d

/-- Mutable state of a `BaseObserver`: the delegated sky model's last
generated map (`sky` = `gsm.generated_map_data`), the cached rotation pair
(`pix0`, `mask`) with the derived RA/Dec views, and the `(time, horizon)`
key they were computed for. -/
structure State where
  freq : ℚ
  time : ℚ
  date : ℚ
  sky : ℕ → ℚ
  observed_sky : Option ((ℕ → ℚ) × (ℕ → Bool))
  pix0 : Option (ℕ → ℕ)
  mask : Option (ℕ → Bool)
  observed_ra : Option (ℕ → ℚ)
  observed_dec : Option (ℕ → ℚ)
  horizon_elevation : ℚ

/-- The time-change test of `generate`: `obstime == self._time or obstime is
None` means no change. -/
def timeChanged (obstime : Option ℚ) (t0 : ℚ) : Bool :=
  match obstime with
  | none => false
  | some t => t != t0

/-- `BaseObserver.generate(freq, obstime, horizon_elevation)`.

`gsm : ℚ → ℕ → ℚ` models `self.gsm.generate` (frequency ↦ full-sky map).
Returns the post-call state (Python mutations survive a raised exception)
together with either the masked observed sky or the raised error.

The source contains the horizon-elevation comparison block twice in
succession (lines 83-93 and 95-105 are verbatim duplicates); both copies are
modelled, in order. -/
def generate (env : ObsEnv) (gsm : ℚ → ℕ → ℚ) (s : State)
    (freq : Option ℚ) (obstime : Option ℚ) (horizon_elevation : Option HorizonIn) :
    State × Except String ((ℕ → ℚ) × (ℕ → Bool)) :=
  -- frequency block: regenerate the sky model only if the frequency changed
  let s1 := match freq with
    | some f => if f ≠ s.freq then { s with sky := gsm f, freq := f } else s
    | none => s
  let sky := s1.sky
  -- time block: `obstime == self._time or obstime is None`
  let time_has_changed := timeChanged obstime s1.time
  let s2 := if time_has_changed
    then { s1 with time := obstime.getD s1.time, date := obstime.getD s1.date }
    else s1
  -- first horizon block
  let h1 := effHorizon env horizon_elevation
  let s3 := if s2.horizon_elevation = h1 then s2 else { s2 with horizon_elevation := h1 }
  if s3.horizon_elevation < 0 then
    (s3, .error "Horizon elevation must be greater or equal to 0 degrees")
  else
    -- duplicated horizon block: `ephem.degrees(horizon_elevation or 0.0)`
    -- re-applied to the already-converted angle, then the same comparison
    let h2 := if h1 = 0 then 0 else h1
    let horizon_has_changed := decide (¬ s3.horizon_elevation = h2)
    let s4 := if s3.horizon_elevation = h2 then s3 else { s3 with horizon_elevation := h2 }
    if s4.horizon_elevation < 0 then
      (s4, .error "Horizon elevation must be greater or equal to 0 degrees")
    else
      let recompute := time_has_changed || s4.observed_sky.isNone || horizon_has_changed
      let s5 := if recompute then
          { s4 with
            pix0 := some (env.pix0Of s4.time)
            mask := some (env.maskOf s4.time s4.horizon_elevation)
            observed_ra := some (env.raOf s4.time)
            observed_dec := some (env.decOf s4.time) }
        else s4
      let p0 := s5.pix0.getD id
      let msk := s5.mask.getD (fun _ => false)
      let obs := (fun p => sky (p0 p), fun p => msk (p0 p))
      ({ s5 with observed_sky := some obs }, .ok obs)

end Observer

/-! ## Coordinate utility (`utils.py`)

`hpix2sky`/`sky2hpix` wrap healpy's RING-scheme `pix2ang(..., lonlat=True)`
and `ang2pix(..., lonlat=True)` around an astropy `SkyCoord` in the galactic
frame.  The `SkyCoord` layer is the identity on galactic (l, b) and the
longitude/latitude↔(θ, φ) degree conversions are mutually inverse bijections,
so the embedding represents a sky direction directly by the exact pair
`z = cos θ` and `t = φ / (π/2) ∈ [0, 4)` — for RING pixel centres both are
rational — and embeds healpy's `pix2ang_ring` / `ang2pix_ring` algorithms
(healpix_base, exact-real semantics of the double arithmetic) over ℚ. -/

namespace Healpix

/-- Structural integer square root (largest `m ≤ fuel` with `m*m ≤ n`),
kernel-reducible; agrees with `Nat.sqrt` when `fuel = n`. -/
def isqrtAux : ℕ → ℕ → ℕ
  | 0, _ => 0
  | (k+1), n => if (k+1)*(k+1) ≤ n then k+1 else isqrtAux k n

/-- `isqrt n = ⌊√n⌋`, the integer square root used by `pix2ang_ring` on the
polar caps. -/
def isqrt (n : ℕ) : ℕ := isqrtAux n n

/-- Total number of pixels at resolution `nside`: `12 * nside²`. -/
def npix (nside : ℕ) : ℕ := 12 * nside ^ 2

/-- Number of pixels in one polar cap: `2 * nside * (nside - 1)`. -/
def ncap (nside : ℕ) : ℕ := 2 * nside * (nside - 1)

/-- `⌊c · √x⌋` for rationals `c, x ≥ 0`, computed exactly as
`isqrt ⌊c² x⌋` (for `y ≥ 0` one has `⌊√y⌋ = ⌊√⌊y⌋⌋`).  Models the
`I(tp * nside * sqrt(3(1-za)))` truncations of `ang2pix_ring` (arguments are
nonnegative there, so C truncation-toward-zero is the floor). -/
def sqrtFloorQ (q : ℚ) : ℤ := isqrt ⌊q⌋.toNat

/-- Ring index (counted from the north pole) of a north-cap pixel `p`:
`(1 + isqrt(1 + 2p)) >> 1`. -/
def northIring (p : ℕ) : ℕ := (1 + isqrt (1 + 2*p)) / 2

/-- Ring index (counted from the south pole) for `ip = npix - p`:
`(1 + isqrt(2·ip - 1)) >> 1`. -/
def southIring (ip : ℕ) : ℕ := (1 + isqrt (2*ip - 1)) / 2

/-- healpy `pix2ang_ring` at resolution `nside` for pixel `p`, returning the
pixel-centre direction as `(z, t) = (cos θ, φ/(π/2))`.  North cap / equatorial
belt / south cap exactly as in healpix_base `pix2zphi` (RING):
ring index from the pole via the integer square root, then the exact centre
`z` and `φ`. -/
def pix2zt (nside p : ℕ) : ℚ × ℚ :=
  if p < ncap nside then
    -- North polar cap
    let iring : ℕ := northIring p
    let iphi : ℤ := (p : ℤ) + 1 - 2*iring*(iring - 1)
    (1 - (iring : ℚ)^2 / (3 * (nside : ℚ)^2), ((iphi : ℚ) - 1/2) / iring)
  else if p < npix nside - ncap nside then
    -- Equatorial region
    let ip : ℕ := p - ncap nside
    let iring : ℕ := ip / (4*nside) + nside
    let iphi : ℕ := ip % (4*nside) + 1
    let fodd : ℚ := if (iring + nside) % 2 = 1 then 1 else 1/2
    ((2*(nside : ℚ) - iring) * 2 / (3 * (nside : ℚ)),
     ((iphi : ℚ) - fodd) / nside)
  else
    -- South polar cap
    let ip : ℕ := npix nside - p
    let iring : ℕ := southIring ip
    let iphi : ℤ := 4*(iring : ℤ) + 1 - ((ip : ℤ) - 2*iring*(iring - 1))
    (-1 + (iring : ℚ)^2 / (3 * (nside : ℚ)^2), ((iphi : ℚ) - 1/2) / iring)

/-- Equatorial branch of healpy `ang2pix_ring` (taken when `|z| ≤ 2/3`):
edge-line indices `jp`/`jm`, ring number from `z = 2/3`, parity shift, and
pixel-in-ring index. -/
def equatPix (nside : ℕ) (z tt : ℚ) : ℤ :=
  let temp1 : ℚ := (nside : ℚ) * (1/2 + tt)
  let temp2 : ℚ := (nside : ℚ) * z * (3/4)
  let jp := ⌊temp1 - temp2⌋
  let jm := ⌊temp1 + temp2⌋
  let ir : ℤ := (nside : ℤ) + 1 + jp - jm
  let kshift : ℤ := 1 - ir % 2
  let t1 : ℤ := jp + jm - nside + kshift + 1 + 4*nside + 4*nside
  let ip : ℤ := (t1 / 2) % (4*nside)
  (ncap nside : ℤ) + (ir - 1) * (4*nside) + ip

/-- Polar-cap branch of healpy `ang2pix_ring` (taken when `|z| > 2/3`). -/
def polarPix (nside : ℕ) (z za tt : ℚ) : ℤ :=
  let tp := tt - ⌊tt⌋
  let jp : ℤ := sqrtFloorQ ((tp * nside)^2 * (3 * (1 - za)))
  let jm : ℤ := sqrtFloorQ (((1 - tp) * nside)^2 * (3 * (1 - za)))
  let ir : ℤ := jp + jm + 1
  let ip : ℤ := ⌊tt * (ir : ℚ)⌋ % (4*ir)
  if 0 < z then
    2*ir*(ir - 1) + ip
  else
    (npix nside : ℤ) - 2*ir*(ir + 1) + ip

/-- healpy `ang2pix_ring` at resolution `nside` for the direction
`(z, t) = (cos θ, φ/(π/2))`, exactly as in healpix_base `ang2pix_z_phi`
(RING): `tt = fmodulo(φ/(π/2), 4)`, equatorial region for `|z| ≤ 2/3`,
polar caps otherwise.  All C truncations `I(...)` are floors because their
arguments are nonnegative in the respective branch. -/
def ang2pixZT (nside : ℕ) (z t : ℚ) : ℤ :=
  let za := |z|
  let tt := t - 4 * ⌊t / 4⌋
  if za ≤ 2/3 then equatPix nside z tt else polarPix nside z za tt

/-- An astropy `SkyCoord` in the galactic frame, direction encoded by
`z = cos θ` and `t = φ/(π/2)` (see the namespace comment: the degree lon/lat
representation used by `utils.py` is an equivalent bijective encoding). -/
structure SkyCoordG where
  z : ℚ
  t : ℚ

/-- `utils.hpix2sky(nside, pix_id)`: healpy `pix2ang(nside, pix, lonlat=True)`
wrapped into a galactic-frame `SkyCoord`. -/
def hpix2sky (nside p : ℕ) : SkyCoordG :=
  ⟨(pix2zt nside p).1, (pix2zt nside p).2⟩

/-- `utils.sky2hpix(nside, sc)`: read back the galactic (l, b) of the
`SkyCoord` (the identity for a galactic-frame coordinate) and apply healpy
`ang2pix(nside, ..., lonlat=True)`. -/
def sky2hpix (nside : ℕ) (sc : SkyCoordG) : ℤ :=
  ang2pixZT nside sc.z sc.t

end Healpix

/-! ## Concrete instantiations (used by witnesses and counterexamples)

The abstract numerical routines are instantiated with simple total functions;
the archive data with tiny tables.  They only serve to evaluate the theorems
at concrete inputs. -/

/-- A concrete `NumEnv` with simple total functions. -/
def envTriv : NumEnv where
  ln := id
  exp := fun x => x + 1
  interpCubic := fun _ _ _ => 2
  interpPchip := fun _ _ _ => 1
  interpSlinear := fun _ _ _ => 1
  rotCG := id
  reorderN2R := id
  npPow := fun _ _ => 1

/-- A tiny concrete `GlobalSkyModel` state (one pixel, default config). -/
def m8Triv : GSM08.State :=
  GSM08.init envTriv .mhz .haslam .pchip false (fun _ => [[1, 2, 3]])
    [[10, 1, 1, 1, 1], [94000, 1, 1, 1, 1]]

/-- `m8Triv` with the CMB term included. -/
def m8TrivCmb : GSM08.State :=
  GSM08.init envTriv .mhz .haslam .pchip true (fun _ => [[1, 2, 3]])
    [[10, 1, 1, 1, 1], [94000, 1, 1, 1, 1]]

/-- A tiny concrete `LowFrequencySkyModel` state (one pixel, default config). -/
def mLTriv : LFSM.State :=
  LFSM.init envTriv .mhz false [[1, 2]] [[10, 1, 1, 1], [408, 1, 1, 1]]

/-- A tiny concrete `GlobalSkyModel16` state (one pixel, TCMB output). -/
def m16Triv : GSM16.State where
  freq_unit := .mhz
  data_unit := .tcmb
  interpolation_method := .pchip
  include_cmb := false
  map_ni := [[1], [1], [1], [1], [1], [1]]
  spec_nf := [[1], [1], [1], [1], [1], [1], [1], [1]]
  interp_comps := none
  generated_map_data := none
  generated_map_freqs := none

/-- A tiny concrete `HaslamSkyModel` state. -/
def mHTriv : Haslam.State where
  freq_unit := .mhz
  spectral_index := -2.6
  include_cmb := false
  data := [3, 4]
  generated_map_data := none
  generated_map_freqs := none

/-- Value of a `generate` call's returned map at (frequency row, pixel),
with 0 for a raised call (used to state closed witness facts). -/
def genValueAt {σ : Type} (r : Except String (σ × GenOut)) (fi p : ℕ) : ℚ :=
  match r with
  | .ok (_, out) => out.valueAt fi p
  | .error _ => 0

/-- A concrete observer geometry environment whose mask depends on the
horizon value (as healpy's `query_disc` radius does). -/
def obsEnvTriv : Observer.ObsEnv where
  pix0Of := fun t p => if t = 0 then p else p + 1
  maskOf := fun _ h _ => decide (h ≠ 0)
  raOf := fun _ _ => 0
  decOf := fun _ _ => 0
  degStr := fun d => d / 60

/-- A concrete observer state: a successful call at time 0, horizon 0 has
already happened, so the rotation cache holds the time-0 pair. -/
def obsStateTriv : Observer.State where
  freq := 50
  time := 0
  date := 0
  sky := fun p => p
  observed_sky := some (fun p => p, fun _ => false)
  pix0 := some id
  mask := some (fun _ => false)
  observed_ra := some (fun _ => 0)
  observed_dec := some (fun _ => 0)
  horizon_elevation := 0

/-- A concrete sky-model delegate for the observer: frequency `f` maps to the
constant map `f`. -/
def gsmTriv : ℚ → ℕ → ℚ := fun f _ => f

/-- A concrete observer state whose last successful call used the nonzero
horizon elevation 0.3 rad, with the matching cached mask
(`obsEnvTriv.maskOf t 0.3 = fun _ => true`). -/
def obsStateTrivH : Observer.State where
  freq := 50
  time := 0
  date := 0
  sky := fun p => p
  observed_sky := some (fun p => p, fun _ => true)
  pix0 := some id
  mask := some (fun _ => true)
  observed_ra := some (fun _ => 0)
  observed_dec := some (fun _ => 0)
  horizon_elevation := 3/10

/-- The state of `m8Triv` after a first successful `generate` at 100 MHz
(used to exercise the configuration setters on a model that has already
generated a map). -/
def m8Gen : GSM08.State :=
  match GSM08.generate envTriv m8Triv (FreqsIn.vector [100]) with
  | .ok (st, _) => st
  | .error _ => m8Triv

/-- The stored generated map of a setter's returned state, read at
(frequency row, pixel); 0 when the setter raised or no map is stored. -/
def setterStored (r : Except String GSM08.State) (fi p : ℕ) : ℚ :=
  match r with
  | .ok m2 =>
    match m2.generated_map_data with
    | some out => out.valueAt fi p
    | none => 0
  | .error _ => 0

end PyGDSM

/-! # Theorems -/

namespace PyGDSM.Healpix

theorem isqrtAux_eq (k n : ℕ) : isqrtAux k n = min k (Nat.sqrt n) := by
  induction k with
  | zero => simp [isqrtAux]
  | succ k ih =>
    by_cases h : (k+1)*(k+1) ≤ n
    · have h1 : k + 1 ≤ Nat.sqrt n := Nat.le_sqrt.mpr h
      simp [isqrtAux, h, Nat.min_eq_left h1]
    · have h2 : Nat.sqrt n ≤ k := by
        by_contra hc
        exact h (Nat.le_sqrt.mp (Nat.lt_iff_add_one_le.mp (Nat.lt_of_not_le hc)))
      simp [isqrtAux, h, ih, Nat.min_eq_right h2, Nat.min_eq_right (Nat.le_succ_of_le h2)]

theorem isqrt_eq (n : ℕ) : isqrt n = Nat.sqrt n := by
  rw [isqrt, isqrtAux_eq, Nat.min_eq_right (Nat.sqrt_le_self n)]

theorem floor_int_add_half (k : ℤ) : ⌊(k : ℚ) + 1/2⌋ = k := by
  rw [Int.floor_int_add]
  norm_num

theorem floor_int_add_quarter (k : ℤ) : ⌊(k : ℚ) + 1/4⌋ = k := by
  rw [Int.floor_int_add]
  norm_num

/-- `sqrtFloorQ` at `(m + 1/2)²` for a nonnegative integer `m` is `m`. -/
theorem sqrtFloorQ_half_sq (m : ℤ) (hm : 0 ≤ m) :
    sqrtFloorQ (((m : ℚ) + 1/2)^2) = m := by
  have h1 : ((m : ℚ) + 1/2)^2 = ((m^2 + m : ℤ) : ℚ) + 1/4 := by
    push_cast
    ring
  rw [sqrtFloorQ, h1, floor_int_add_quarter]
  obtain ⟨k, rfl⟩ := Int.eq_ofNat_of_zero_le hm
  have h2 : ((k : ℤ)^2 + k).toNat = k^2 + k := by
    have : ((k : ℤ)^2 + k) = ((k^2 + k : ℕ) : ℤ) := by push_cast; ring
    rw [this, Int.toNat_natCast]
  rw [h2, isqrt_eq, Nat.sqrt_add_eq' k (by omega)]

/-- Core computation of the polar-cap branch at a cap pixel centre: ring `i`
(counted from the pole, `1 ≤ i < nside`) and in-ring position `iphi ∈ [1, 4i]`
are recovered exactly. -/
theorem polarPix_eval (n i : ℕ) (iphi : ℤ) (z : ℚ) (hn : 1 ≤ n) (hi1 : 1 ≤ i)
    (hp1 : 1 ≤ iphi) (hp2 : iphi ≤ 4*i) :
    polarPix n z (1 - (i : ℚ)^2 / (3 * (n : ℚ)^2)) (((iphi : ℚ) - 1/2) / (i : ℚ)) =
      if 0 < z then 2*(i : ℤ)*((i : ℤ) - 1) + (iphi - 1)
      else (npix n : ℤ) - 2*(i : ℤ)*((i : ℤ) + 1) + (iphi - 1) := by
  have hiZ : (0 : ℤ) < (i : ℤ) := by exact_mod_cast hi1
  have hiQ : (0 : ℚ) < (i : ℚ) := by exact_mod_cast hi1
  have hnQ : (0 : ℚ) < (n : ℚ) := by exact_mod_cast hn
  set q : ℤ := (iphi - 1) / (i : ℤ) with hq
  set r : ℤ := (iphi - 1) % (i : ℤ) with hr
  have hr0 : 0 ≤ r := Int.emod_nonneg _ (by omega)
  have hri : r < (i : ℤ) := Int.emod_lt_of_pos _ hiZ
  have hqr : iphi - 1 = (i : ℤ) * q + r := (Int.ediv_add_emod _ _).symm
  have hq0 : 0 ≤ q := by
    rcases Int.lt_or_le q 0 with h | h
    · exfalso
      nlinarith [hqr, hp1, hri]
    · exact h
  -- the query angle splits as integer part q plus fractional part (r + 1/2)/i
  have ht_eq : ((iphi : ℚ) - 1/2) / (i : ℚ) = (q : ℚ) + ((r : ℚ) + 1/2) / (i : ℚ) := by
    have hc : (iphi : ℚ) - 1 = (i : ℚ) * (q : ℚ) + (r : ℚ) := by
      exact_mod_cast congrArg (fun x : ℤ => (x : ℚ)) hqr
    field_simp
    linarith
  have hfrac0 : 0 ≤ ((r : ℚ) + 1/2) / (i : ℚ) := by positivity
  have hfrac1 : ((r : ℚ) + 1/2) / (i : ℚ) < 1 := by
    rw [div_lt_one hiQ]
    have : (r : ℚ) + 1 ≤ (i : ℚ) := by exact_mod_cast hri
    linarith
  have hfloor_t : ⌊((iphi : ℚ) - 1/2) / (i : ℚ)⌋ = q := by
    rw [ht_eq, Int.floor_int_add, Int.floor_eq_zero_iff.mpr ⟨hfrac0, hfrac1⟩, add_zero]
  have htp : ((iphi : ℚ) - 1/2) / (i : ℚ) - (q : ℚ) = ((r : ℚ) + 1/2) / (i : ℚ) := by
    rw [ht_eq]
    ring
  -- the two sqrt floors
  have hza : (3 : ℚ) * (1 - (1 - (i : ℚ)^2 / (3 * (n : ℚ)^2))) = (i : ℚ)^2 / (n : ℚ)^2 := by
    field_simp
    ring
  have hjp : sqrtFloorQ ((((r : ℚ) + 1/2) / (i : ℚ) * (n : ℚ))^2 *
      ((i : ℚ)^2 / (n : ℚ)^2)) = r := by
    have harg : (((r : ℚ) + 1/2) / (i : ℚ) * (n : ℚ))^2 * ((i : ℚ)^2 / (n : ℚ)^2) =
        ((r : ℚ) + 1/2)^2 := by
      field_simp
      ring
    rw [harg]
    exact sqrtFloorQ_half_sq r hr0
  have hjm : sqrtFloorQ (((1 - ((r : ℚ) + 1/2) / (i : ℚ)) * (n : ℚ))^2 *
      ((i : ℚ)^2 / (n : ℚ)^2)) = (i : ℤ) - r - 1 := by
    have harg : ((1 - ((r : ℚ) + 1/2) / (i : ℚ)) * (n : ℚ))^2 * ((i : ℚ)^2 / (n : ℚ)^2) =
        ((((i : ℤ) - r - 1 : ℤ) : ℚ) + 1/2)^2 := by
      push_cast
      field_simp
      ring
    rw [harg]
    exact sqrtFloorQ_half_sq _ (by omega)
  -- the in-ring pixel index
  have hip : ⌊((iphi : ℚ) - 1/2) / (i : ℚ) * ((i : ℤ) : ℚ)⌋ = iphi - 1 := by
    have harg : ((iphi : ℚ) - 1/2) / (i : ℚ) * ((i : ℤ) : ℚ) = ((iphi - 1 : ℤ) : ℚ) + 1/2 := by
      push_cast
      field_simp
      ring
    rw [harg, floor_int_add_half]
  simp only [polarPix, hfloor_t, htp, hza, hjp, hjm]
  have hir : r + ((i : ℤ) - r - 1) + 1 = (i : ℤ) := by ring
  rw [hir, hip, Int.emod_eq_of_lt (by omega) (by omega)]

/-- Core computation of the equatorial branch at a belt pixel centre: global
ring `i ∈ [nside, 3·nside]` and in-ring position `iphi ∈ [1, 4·nside]` are
recovered exactly (with the parity offset `fodd`). -/
theorem equatPix_eval (n i iphi : ℕ) (hn : 1 ≤ n) (hi1 : n ≤ i) (hi2 : i ≤ 3*n)
    (hp1 : 1 ≤ iphi) (hp2 : iphi ≤ 4*n) :
    equatPix n ((2*(n : ℚ) - (i : ℚ)) * 2 / (3 * (n : ℚ)))
      (((iphi : ℚ) - (if (i + n) % 2 = 1 then (1 : ℚ) else 1/2)) / (n : ℚ)) =
      (ncap n : ℤ) + ((i : ℤ) - (n : ℤ)) * (4*(n : ℤ)) + ((iphi : ℤ) - 1) := by
  have hnQ : (0 : ℚ) < (n : ℚ) := by exact_mod_cast hn
  by_cases hpar : (i + n) % 2 = 1
  · -- odd case: i = n + 2d + 1, fodd = 1
    obtain ⟨d, hd⟩ : ∃ d, i = n + 2*d + 1 := by
      refine ⟨(i - n - 1) / 2, ?_⟩
      omega
    have hdn : d + 1 ≤ n := by omega
    subst hd
    rw [if_pos hpar]
    have hjp : ⌊(n : ℚ) * (1/2 + ((iphi : ℚ) - 1) / (n : ℚ)) -
        (n : ℚ) * ((2*(n : ℚ) - ((n + 2*d + 1 : ℕ) : ℚ)) * 2 / (3 * (n : ℚ))) * (3/4)⌋ =
        (iphi : ℤ) + d - 1 := by
      have harg : (n : ℚ) * (1/2 + ((iphi : ℚ) - 1) / (n : ℚ)) -
          (n : ℚ) * ((2*(n : ℚ) - ((n + 2*d + 1 : ℕ) : ℚ)) * 2 / (3 * (n : ℚ))) * (3/4) =
          (((iphi : ℤ) + d - 1 : ℤ) : ℚ) + 1/2 := by
        push_cast
        field_simp
        ring
      rw [harg, floor_int_add_half]
    have hjm : ⌊(n : ℚ) * (1/2 + ((iphi : ℚ) - 1) / (n : ℚ)) +
        (n : ℚ) * ((2*(n : ℚ) - ((n + 2*d + 1 : ℕ) : ℚ)) * 2 / (3 * (n : ℚ))) * (3/4)⌋ =
        (iphi : ℤ) + n - d - 2 := by
      have harg : (n : ℚ) * (1/2 + ((iphi : ℚ) - 1) / (n : ℚ)) +
          (n : ℚ) * ((2*(n : ℚ) - ((n + 2*d + 1 : ℕ) : ℚ)) * 2 / (3 * (n : ℚ))) * (3/4) =
          (((iphi : ℤ) + n - d - 2 : ℤ) : ℚ) + 1/2 := by
        push_cast
        field_simp
        ring
      rw [harg, floor_int_add_half]
    have hone : ((iphi : ℚ) - 1) = ((iphi : ℚ) - 1/2 - 1/2) := by ring
    simp only [equatPix, hjp, hjm]
    have hir : (n : ℤ) + 1 + ((iphi : ℤ) + d - 1) - ((iphi : ℤ) + n - d - 2) = 2*d + 2 := by
      ring
    rw [hir]
    have hks : (1 : ℤ) - (2*(d : ℤ) + 2) % 2 = 1 := by omega
    rw [hks]
    have ht1 : ((iphi : ℤ) + d - 1) + ((iphi : ℤ) + n - d - 2) - (n : ℤ) + 1 + 1 +
        4*(n : ℤ) + 4*(n : ℤ) = 2*(iphi : ℤ) + 8*n - 1 := by ring
    rw [ht1]
    have hdiv : (2*(iphi : ℤ) + 8*(n : ℤ) - 1) / 2 = (iphi : ℤ) + 4*n - 1 := by omega
    rw [hdiv]
    have hmod : ((iphi : ℤ) + 4*(n : ℤ) - 1) % (4*(n : ℤ)) = (iphi : ℤ) - 1 := by
      have hrw : (iphi : ℤ) + 4*(n : ℤ) - 1 = ((iphi : ℤ) - 1) + 4*(n : ℤ) * 1 := by ring
      rw [hrw, Int.add_mul_emod_self_left, Int.emod_eq_of_lt (by omega) (by omega)]
    rw [hmod]
    push_cast
    ring
  · -- even case: i = n + 2d, fodd = 1/2
    obtain ⟨d, hd⟩ : ∃ d, i = n + 2*d := by
      refine ⟨(i - n) / 2, ?_⟩
      omega
    have hdn : d ≤ n := by omega
    subst hd
    rw [if_neg hpar]
    have hjp : ⌊(n : ℚ) * (1/2 + ((iphi : ℚ) - 1/2) / (n : ℚ)) -
        (n : ℚ) * ((2*(n : ℚ) - ((n + 2*d : ℕ) : ℚ)) * 2 / (3 * (n : ℚ))) * (3/4)⌋ =
        (iphi : ℤ) + d - 1 := by
      have harg : (n : ℚ) * (1/2 + ((iphi : ℚ) - 1/2) / (n : ℚ)) -
          (n : ℚ) * ((2*(n : ℚ) - ((n + 2*d : ℕ) : ℚ)) * 2 / (3 * (n : ℚ))) * (3/4) =
          (((iphi : ℤ) + d - 1 : ℤ) : ℚ) + 1/2 := by
        push_cast
        field_simp
        ring
      rw [harg, floor_int_add_half]
    have hjm : ⌊(n : ℚ) * (1/2 + ((iphi : ℚ) - 1/2) / (n : ℚ)) +
        (n : ℚ) * ((2*(n : ℚ) - ((n + 2*d : ℕ) : ℚ)) * 2 / (3 * (n : ℚ))) * (3/4)⌋ =
        (iphi : ℤ) + n - d - 1 := by
      have harg : (n : ℚ) * (1/2 + ((iphi : ℚ) - 1/2) / (n : ℚ)) +
          (n : ℚ) * ((2*(n : ℚ) - ((n + 2*d : ℕ) : ℚ)) * 2 / (3 * (n : ℚ))) * (3/4) =
          (((iphi : ℤ) + n - d - 1 : ℤ) : ℚ) + 1/2 := by
        push_cast
        field_simp
        ring
      rw [harg, floor_int_add_half]
    simp only [equatPix, hjp, hjm]
    have hir : (n : ℤ) + 1 + ((iphi : ℤ) + d - 1) - ((iphi : ℤ) + n - d - 1) = 2*d + 1 := by
      ring
    rw [hir]
    have hks : (1 : ℤ) - (2*(d : ℤ) + 1) % 2 = 0 := by omega
    rw [hks]
    have ht1 : ((iphi : ℤ) + d - 1) + ((iphi : ℤ) + n - d - 1) - (n : ℤ) + 0 + 1 +
        4*(n : ℤ) + 4*(n : ℤ) = 2*(iphi : ℤ) + 8*n - 1 := by ring
    rw [ht1]
    have hdiv : (2*(iphi : ℤ) + 8*(n : ℤ) - 1) / 2 = (iphi : ℤ) + 4*n - 1 := by omega
    rw [hdiv]
    have hmod : ((iphi : ℤ) + 4*(n : ℤ) - 1) % (4*(n : ℤ)) = (iphi : ℤ) - 1 := by
      have hrw : (iphi : ℤ) + 4*(n : ℤ) - 1 = ((iphi : ℤ) - 1) + 4*(n : ℤ) * 1 := by ring
      rw [hrw, Int.add_mul_emod_self_left, Int.emod_eq_of_lt (by omega) (by omega)]
    rw [hmod]
    push_cast
    ring

theorem ncap_cast (n : ℕ) (hn : 1 ≤ n) : (ncap n : ℤ) = 2*(n : ℤ)*((n : ℤ) - 1) := by
  rw [ncap]
  push_cast [Nat.cast_sub hn]
  ring

theorem npix_cast (n : ℕ) : (npix n : ℤ) = 12*(n : ℤ)^2 := by
  rw [npix]
  push_cast
  ring

/-- The north-cap ring index brackets its pixel: for `i = northIring p` one
has `1 ≤ i` and `2i(i-1) ≤ p < 2i(i+1)`. -/
theorem northIring_spec (p : ℕ) :
    1 ≤ northIring p ∧
    2*(northIring p : ℤ)*((northIring p : ℤ) - 1) ≤ (p : ℤ) ∧
    (p : ℤ) < 2*(northIring p : ℤ)*((northIring p : ℤ) + 1) := by
  have hs1 : isqrt (1 + 2*p) * isqrt (1 + 2*p) ≤ 1 + 2*p := by
    rw [isqrt_eq]
    exact Nat.sqrt_le _
  have hs2 : 1 + 2*p < (isqrt (1 + 2*p) + 1) * (isqrt (1 + 2*p) + 1) := by
    rw [isqrt_eq]
    exact Nat.lt_succ_sqrt _
  have hs0 : 1 ≤ isqrt (1 + 2*p) := by
    rw [isqrt_eq]
    have := Nat.sqrt_pos.mpr (show 0 < 1 + 2*p by omega)
    omega
  set s := isqrt (1 + 2*p) with hs
  have hii : northIring p = (1 + s)/2 := by rw [northIring, hs]
  have hb1 : 2*(northIring p) ≤ 1 + s := by omega
  have hb2 : s ≤ 2*(northIring p) := by omega
  have hi1 : 1 ≤ northIring p := by omega
  refine ⟨hi1, ?_, ?_⟩
  · have h1 : ((2*(northIring p) : ℤ) - 1)^2 ≤ ((s : ℤ))^2 := by
      have : (2*(northIring p) : ℤ) - 1 ≤ (s : ℤ) := by
        have h := hb1
        zify at h
        linarith
      nlinarith [show (0 : ℤ) ≤ (s : ℤ) by positivity]
    have h2 : ((s : ℤ))^2 ≤ 1 + 2*(p : ℤ) := by
      have h := hs1
      zify at h
      nlinarith
    nlinarith
  · have h1 : ((s : ℤ) + 1)^2 ≤ ((2*(northIring p) : ℤ) + 1)^2 := by
      have : (s : ℤ) + 1 ≤ (2*(northIring p) : ℤ) + 1 := by exact_mod_cast Nat.add_le_add_right hb2 1
      nlinarith [show (0 : ℤ) ≤ (s : ℤ) + 1 by positivity]
    have h2 : 1 + 2*(p : ℤ) < ((s : ℤ) + 1)^2 := by
      have h := hs2
      zify at h
      nlinarith
    nlinarith

/-- The south-cap ring index brackets its pixel: for `i = southIring ip`,
`1 ≤ ip` gives `1 ≤ i` and `2i(i-1) < ip ≤ 2i(i+1)`. -/
theorem southIring_spec (ip : ℕ) (h1 : 1 ≤ ip) :
    1 ≤ southIring ip ∧
    2*(southIring ip : ℤ)*((southIring ip : ℤ) - 1) < (ip : ℤ) ∧
    (ip : ℤ) ≤ 2*(southIring ip : ℤ)*((southIring ip : ℤ) + 1) := by
  have hs1 : isqrt (2*ip - 1) * isqrt (2*ip - 1) ≤ 2*ip - 1 := by
    rw [isqrt_eq]
    exact Nat.sqrt_le _
  have hs2 : 2*ip - 1 < (isqrt (2*ip - 1) + 1) * (isqrt (2*ip - 1) + 1) := by
    rw [isqrt_eq]
    exact Nat.lt_succ_sqrt _
  have hs0 : 1 ≤ isqrt (2*ip - 1) := by
    rw [isqrt_eq]
    have := Nat.sqrt_pos.mpr (show 0 < 2*ip - 1 by omega)
    omega
  set s := isqrt (2*ip - 1) with hs
  have hii : southIring ip = (1 + s)/2 := by rw [southIring, hs]
  have hb1 : 2*(southIring ip) ≤ 1 + s := by omega
  have hb2 : s ≤ 2*(southIring ip) := by omega
  have hi1 : 1 ≤ southIring ip := by omega
  have hcast : (2*(ip : ℤ)) - 1 = ((2*ip - 1 : ℕ) : ℤ) := by
    push_cast [Nat.cast_sub (show 1 ≤ 2*ip by omega)]
    ring
  refine ⟨hi1, ?_, ?_⟩
  · have h1 : ((2*(southIring ip) : ℤ) - 1)^2 ≤ ((s : ℤ))^2 := by
      have : (2*(southIring ip) : ℤ) - 1 ≤ (s : ℤ) := by
        have h := hb1
        zify at h
        linarith
      nlinarith [show (0 : ℤ) ≤ (s : ℤ) by positivity]
    have h2 : ((s : ℤ))^2 ≤ 2*(ip : ℤ) - 1 := by
      rw [hcast]
      have h := hs1
      zify at h
      nlinarith
    nlinarith
  · have h1 : ((s : ℤ) + 1)^2 ≤ ((2*(southIring ip) : ℤ) + 1)^2 := by
      have : (s : ℤ) + 1 ≤ (2*(southIring ip) : ℤ) + 1 := by exact_mod_cast Nat.add_le_add_right hb2 1
      nlinarith [show (0 : ℤ) ≤ (s : ℤ) + 1 by positivity]
    have h2 : 2*(ip : ℤ) - 1 < ((s : ℤ) + 1)^2 := by
      rw [hcast]
      have h := hs2
      zify at h
      nlinarith
    nlinarith

/-- Round trip on the north polar cap. -/
theorem roundtrip_north (n p : ℕ) (hn : 1 ≤ n) (h : p < ncap n) :
    ang2pixZT n (pix2zt n p).1 (pix2zt n p).2 = (p : ℤ) := by
  obtain ⟨hi1, hlow, hup⟩ := northIring_spec p
  have hnZ : (1 : ℤ) ≤ (n : ℤ) := by exact_mod_cast hn
  have hpZ : (p : ℤ) < 2*(n : ℤ)*((n : ℤ) - 1) := by
    rw [← ncap_cast n hn]
    exact_mod_cast h
  have hiltn : northIring p < n := by
    by_contra hc
    push_neg at hc
    have hcZ : (n : ℤ) ≤ (northIring p : ℤ) := by exact_mod_cast hc
    nlinarith
  have hiQ1 : (1 : ℚ) ≤ (northIring p : ℚ) := by exact_mod_cast hi1
  have hnQ : (0 : ℚ) < (n : ℚ) := by exact_mod_cast hn
  have hsq : ((northIring p : ℚ))^2 < ((n : ℚ))^2 := by
    have hin : (northIring p : ℚ) < (n : ℚ) := by exact_mod_cast hiltn
    nlinarith
  have hz_gt : 2/3 < 1 - (northIring p : ℚ)^2 / (3 * (n : ℚ)^2) := by
    have hd : (northIring p : ℚ)^2 / (3 * (n : ℚ)^2) < 1/3 := by
      rw [div_lt_iff (by positivity)]
      nlinarith
    linarith
  have hz_pos : 0 < 1 - (northIring p : ℚ)^2 / (3 * (n : ℚ)^2) := by linarith
  have habs : |1 - (northIring p : ℚ)^2 / (3 * (n : ℚ)^2)| =
      1 - (northIring p : ℚ)^2 / (3 * (n : ℚ)^2) := abs_of_pos hz_pos
  have hcond : ¬(|1 - (northIring p : ℚ)^2 / (3 * (n : ℚ)^2)| ≤ 2/3) := by
    rw [habs]
    linarith
  have hiphi1 : 1 ≤ (p : ℤ) + 1 - 2*(northIring p : ℤ)*((northIring p : ℤ) - 1) := by
    linarith
  have hiphi2 : (p : ℤ) + 1 - 2*(northIring p : ℤ)*((northIring p : ℤ) - 1) ≤
      4*(northIring p : ℤ) := by
    have hrel : 2*(northIring p : ℤ)*((northIring p : ℤ) + 1) =
        2*(northIring p : ℤ)*((northIring p : ℤ) - 1) + 4*(northIring p : ℤ) := by ring
    linarith
  have ht0 : (0 : ℚ) ≤ ((((p : ℤ) + 1 - 2*(northIring p : ℤ)*((northIring p : ℤ) - 1) : ℤ) : ℚ)
      - 1/2) / (northIring p : ℚ) := by
    have h1 : (1 : ℚ) ≤ (((p : ℤ) + 1 - 2*(northIring p : ℤ)*((northIring p : ℤ) - 1) : ℤ) : ℚ)
        := by exact_mod_cast hiphi1
    have h2 : (0 : ℚ) < (northIring p : ℚ) := by linarith
    apply div_nonneg _ (le_of_lt h2)
    linarith
  have ht4 : ((((p : ℤ) + 1 - 2*(northIring p : ℤ)*((northIring p : ℤ) - 1) : ℤ) : ℚ)
      - 1/2) / (northIring p : ℚ) < 4 := by
    rw [div_lt_iff (by linarith)]
    have h2 : (((p : ℤ) + 1 - 2*(northIring p : ℤ)*((northIring p : ℤ) - 1) : ℤ) : ℚ) ≤
        4 * (northIring p : ℚ) := by exact_mod_cast hiphi2
    linarith
  have hfloor : ⌊(((((p : ℤ) + 1 - 2*(northIring p : ℤ)*((northIring p : ℤ) - 1) : ℤ) : ℚ)
      - 1/2) / (northIring p : ℚ)) / 4⌋ = 0 := by
    rw [Int.floor_eq_zero_iff]
    constructor
    · exact div_nonneg ht0 (by norm_num)
    · rw [div_lt_one (by norm_num)] at *
      linarith
  simp only [pix2zt, if_pos h, ang2pixZT]
  rw [hfloor]
  have htt : (((((p : ℤ) + 1 - 2*(northIring p : ℤ)*((northIring p : ℤ) - 1) : ℤ) : ℚ)
      - 1/2) / (northIring p : ℚ)) - 4*((0 : ℤ) : ℚ) =
      ((((p : ℤ) + 1 - 2*(northIring p : ℤ)*((northIring p : ℤ) - 1) : ℤ) : ℚ)
      - 1/2) / (northIring p : ℚ) := by
    push_cast
    ring
  rw [htt, if_neg hcond, habs,
    polarPix_eval n (northIring p) _ _ hn hi1 hiphi1 hiphi2, if_pos hz_pos]
  ring

/-- Round trip on the south polar cap. -/
theorem roundtrip_south (n p : ℕ) (hn : 1 ≤ n) (h1 : ¬ p < npix n - ncap n)
    (h2 : p < npix n) :
    ang2pixZT n (pix2zt n p).1 (pix2zt n p).2 = (p : ℤ) := by
  have hnn : npix n = 12*(n*n) := by
    rw [npix]
    ring
  have hcapeq : ncap n + 2*n = 2*(n*n) := by
    rw [ncap]
    cases n with
    | zero => simp
    | succ m =>
      simp only [Nat.succ_sub_one]
      ring
  have hu : n ≤ n*n := Nat.le_mul_of_pos_left n (by omega)
  have hcapn : ncap n < npix n := by omega
  have hip1 : 1 ≤ npix n - p := by omega
  obtain ⟨hi1, hlow, hup⟩ := southIring_spec (npix n - p) hip1
  have hipcast : ((npix n - p : ℕ) : ℤ) = (npix n : ℤ) - (p : ℤ) := by
    push_cast [Nat.cast_sub (le_of_lt h2)]
    ring
  rw [hipcast] at hlow hup
  have hnZ : (1 : ℤ) ≤ (n : ℤ) := by exact_mod_cast hn
  have hipcapZ : (npix n : ℤ) - (p : ℤ) ≤ 2*(n : ℤ)*((n : ℤ) - 1) := by
    rw [← ncap_cast n hn]
    omega
  have hiltn : southIring (npix n - p) < n := by
    by_contra hc
    push_neg at hc
    have hcZ : (n : ℤ) ≤ (southIring (npix n - p) : ℤ) := by exact_mod_cast hc
    nlinarith
  have hi1Z : (1 : ℤ) ≤ (southIring (npix n - p) : ℤ) := by exact_mod_cast hi1
  have hnQ : (0 : ℚ) < (n : ℚ) := by exact_mod_cast hn
  have hsq : ((southIring (npix n - p) : ℚ))^2 < ((n : ℚ))^2 := by
    have hin : (southIring (npix n - p) : ℚ) < (n : ℚ) := by exact_mod_cast hiltn
    have : (0 : ℚ) ≤ (southIring (npix n - p) : ℚ) := by positivity
    nlinarith
  have hz_neg : -1 + (southIring (npix n - p) : ℚ)^2 / (3 * (n : ℚ)^2) < 0 := by
    have hd : (southIring (npix n - p) : ℚ)^2 / (3 * (n : ℚ)^2) < 1/3 := by
      rw [div_lt_iff (by positivity)]
      nlinarith
    linarith
  have habs : |(-1 + (southIring (npix n - p) : ℚ)^2 / (3 * (n : ℚ)^2) : ℚ)| =
      1 - (southIring (npix n - p) : ℚ)^2 / (3 * (n : ℚ)^2) := by
    rw [abs_of_neg hz_neg]
    ring
  have hcond : ¬(|(-1 + (southIring (npix n - p) : ℚ)^2 / (3 * (n : ℚ)^2) : ℚ)| ≤ 2/3) := by
    rw [habs]
    have hd : (southIring (npix n - p) : ℚ)^2 / (3 * (n : ℚ)^2) < 1/3 := by
      rw [div_lt_iff (by positivity)]
      nlinarith
    linarith
  -- iphi = 4i + 1 - (ip - 2i(i-1)) with ip = npix - p
  have hiphi1 : 1 ≤ 4*(southIring (npix n - p) : ℤ) + 1 -
      (((npix n - p : ℕ) : ℤ) - 2*(southIring (npix n - p) : ℤ)*((southIring (npix n - p) : ℤ) - 1)) := by
    rw [hipcast]
    have hrel : 2*(southIring (npix n - p) : ℤ)*((southIring (npix n - p) : ℤ) + 1) =
        2*(southIring (npix n - p) : ℤ)*((southIring (npix n - p) : ℤ) - 1) +
        4*(southIring (npix n - p) : ℤ) := by ring
    linarith
  have hiphi2 : 4*(southIring (npix n - p) : ℤ) + 1 -
      (((npix n - p : ℕ) : ℤ) - 2*(southIring (npix n - p) : ℤ)*((southIring (npix n - p) : ℤ) - 1)) ≤
      4*(southIring (npix n - p) : ℤ) := by
    rw [hipcast]
    linarith
  have ht0 : (0 : ℚ) ≤ (((4*(southIring (npix n - p) : ℤ) + 1 -
      (((npix n - p : ℕ) : ℤ) - 2*(southIring (npix n - p) : ℤ)*((southIring (npix n - p) : ℤ) - 1)) : ℤ) : ℚ)
      - 1/2) / (southIring (npix n - p) : ℚ) := by
    have hA : (1 : ℚ) ≤ ((4*(southIring (npix n - p) : ℤ) + 1 -
        (((npix n - p : ℕ) : ℤ) - 2*(southIring (npix n - p) : ℤ)*((southIring (npix n - p) : ℤ) - 1)) : ℤ) : ℚ)
        := by exact_mod_cast hiphi1
    have hB : (0 : ℚ) < (southIring (npix n - p) : ℚ) := by exact_mod_cast hi1
    apply div_nonneg _ (le_of_lt hB)
    linarith
  have ht4 : (((4*(southIring (npix n - p) : ℤ) + 1 -
      (((npix n - p : ℕ) : ℤ) - 2*(southIring (npix n - p) : ℤ)*((southIring (npix n - p) : ℤ) - 1)) : ℤ) : ℚ)
      - 1/2) / (southIring (npix n - p) : ℚ) < 4 := by
    have hB : (0 : ℚ) < (southIring (npix n - p) : ℚ) := by exact_mod_cast hi1
    rw [div_lt_iff hB]
    have hA : ((4*(southIring (npix n - p) : ℤ) + 1 -
        (((npix n - p : ℕ) : ℤ) - 2*(southIring (npix n - p) : ℤ)*((southIring (npix n - p) : ℤ) - 1)) : ℤ) : ℚ) ≤
        4 * (southIring (npix n - p) : ℚ) := by exact_mod_cast hiphi2
    linarith
  have hfloor : ⌊((((4*(southIring (npix n - p) : ℤ) + 1 -
      (((npix n - p : ℕ) : ℤ) - 2*(southIring (npix n - p) : ℤ)*((southIring (npix n - p) : ℤ) - 1)) : ℤ) : ℚ)
      - 1/2) / (southIring (npix n - p) : ℚ)) / 4⌋ = 0 := by
    rw [Int.floor_eq_zero_iff]
    refine ⟨div_nonneg ht0 (by norm_num), ?_⟩
    rw [div_lt_one (by norm_num)]
    linarith
  have h1' : ¬ p < ncap n := by omega
  simp only [pix2zt, if_neg h1', if_neg h1, ang2pixZT]
  rw [hfloor]
  have htt : (((((4*(southIring (npix n - p) : ℤ) + 1 -
      (((npix n - p : ℕ) : ℤ) - 2*(southIring (npix n - p) : ℤ)*((southIring (npix n - p) : ℤ) - 1)) : ℤ) : ℚ)
      - 1/2) / (southIring (npix n - p) : ℚ))) - 4*((0 : ℤ) : ℚ) =
      ((((4*(southIring (npix n - p) : ℤ) + 1 -
      (((npix n - p : ℕ) : ℤ) - 2*(southIring (npix n - p) : ℤ)*((southIring (npix n - p) : ℤ) - 1)) : ℤ) : ℚ)
      - 1/2) / (southIring (npix n - p) : ℚ)) := by
    push_cast
    ring
  rw [htt, if_neg hcond, habs,
    polarPix_eval n (southIring (npix n - p)) _ _ hn hi1 hiphi1 hiphi2,
    if_neg (by linarith : ¬ (0 : ℚ) < -1 + (southIring (npix n - p) : ℚ)^2 / (3 * (n : ℚ)^2))]
  rw [hipcast]
  ring

/-- Round trip on the equatorial belt. -/
theorem roundtrip_equat (n p : ℕ) (hn : 1 ≤ n) (h1 : ¬ p < ncap n)
    (h2 : p < npix n - ncap n) :
    ang2pixZT n (pix2zt n p).1 (pix2zt n p).2 = (p : ℤ) := by
  have h4n : 0 < 4*n := by omega
  have hnn : npix n = 12*(n*n) := by
    rw [npix]
    ring
  have hcapeq : ncap n + 2*n = 2*(n*n) := by
    rw [ncap]
    cases n with
    | zero => simp
    | succ m =>
      simp only [Nat.succ_sub_one]
      ring
  have hmul1 : (2*n + 1) * (4*n) = 8*(n*n) + 4*n := by ring
  have hip_lt : p - ncap n < (2*n + 1) * (4*n) := by omega
  have hqle : (p - ncap n) / (4*n) ≤ 2*n := by
    have := (Nat.div_lt_iff_lt_mul h4n).mpr hip_lt
    omega
  have hi1 : n ≤ (p - ncap n) / (4*n) + n := Nat.le_add_left n _
  have hi2 : (p - ncap n) / (4*n) + n ≤ 3*n := by omega
  have hp1 : 1 ≤ (p - ncap n) % (4*n) + 1 := Nat.le_add_left 1 _
  have hp2 : (p - ncap n) % (4*n) + 1 ≤ 4*n := by
    have := Nat.mod_lt (p - ncap n) h4n
    omega
  have hnQ : (0 : ℚ) < (n : ℚ) := by exact_mod_cast hn
  -- branch condition |z| ≤ 2/3
  have hzub : (2*(n : ℚ) - (((p - ncap n) / (4*n) + n : ℕ) : ℚ)) * 2 / (3 * (n : ℚ)) ≤ 2/3 := by
    rw [div_le_iff (by positivity)]
    have : (n : ℚ) ≤ (((p - ncap n) / (4*n) + n : ℕ) : ℚ) := by exact_mod_cast hi1
    linarith
  have hzlb : -(2/3) ≤ (2*(n : ℚ) - (((p - ncap n) / (4*n) + n : ℕ) : ℚ)) * 2 / (3 * (n : ℚ)) := by
    rw [le_div_iff (by positivity)]
    have : (((p - ncap n) / (4*n) + n : ℕ) : ℚ) ≤ 3*(n : ℚ) := by exact_mod_cast hi2
    linarith
  have hcond : |(2*(n : ℚ) - (((p - ncap n) / (4*n) + n : ℕ) : ℚ)) * 2 / (3 * (n : ℚ))| ≤ 2/3 :=
    abs_le.mpr ⟨hzlb, hzub⟩
  -- the t value is in [0, 4)
  have hfoddle : (if ((p - ncap n) / (4*n) + n + n) % 2 = 1 then (1 : ℚ) else 1/2) ≤ 1 := by
    split <;> norm_num
  have hfoddpos : (0 : ℚ) < (if ((p - ncap n) / (4*n) + n + n) % 2 = 1 then (1 : ℚ) else 1/2) := by
    split <;> norm_num
  have hphiQ1 : (1 : ℚ) ≤ (((p - ncap n) % (4*n) + 1 : ℕ) : ℚ) := by exact_mod_cast hp1
  have hphiQ2 : (((p - ncap n) % (4*n) + 1 : ℕ) : ℚ) ≤ 4*(n : ℚ) := by exact_mod_cast hp2
  have ht0 : (0 : ℚ) ≤ ((((p - ncap n) % (4*n) + 1 : ℕ) : ℚ) -
      (if ((p - ncap n) / (4*n) + n + n) % 2 = 1 then (1 : ℚ) else 1/2)) / (n : ℚ) := by
    apply div_nonneg _ (le_of_lt hnQ)
    linarith
  have ht4 : ((((p - ncap n) % (4*n) + 1 : ℕ) : ℚ) -
      (if ((p - ncap n) / (4*n) + n + n) % 2 = 1 then (1 : ℚ) else 1/2)) / (n : ℚ) < 4 := by
    rw [div_lt_iff hnQ]
    linarith
  have hfloor : ⌊(((((p - ncap n) % (4*n) + 1 : ℕ) : ℚ) -
      (if ((p - ncap n) / (4*n) + n + n) % 2 = 1 then (1 : ℚ) else 1/2)) / (n : ℚ)) / 4⌋ = 0 := by
    rw [Int.floor_eq_zero_iff]
    refine ⟨div_nonneg ht0 (by norm_num), ?_⟩
    rw [div_lt_one (by norm_num)]
    linarith
  simp only [pix2zt, if_neg h1, if_pos h2, ang2pixZT]
  rw [hfloor]
  have htt : ((((((p - ncap n) % (4*n) + 1 : ℕ) : ℚ) -
      (if ((p - ncap n) / (4*n) + n + n) % 2 = 1 then (1 : ℚ) else 1/2)) / (n : ℚ))) -
      4*((0 : ℤ) : ℚ) =
      (((((p - ncap n) % (4*n) + 1 : ℕ) : ℚ) -
      (if ((p - ncap n) / (4*n) + n + n) % 2 = 1 then (1 : ℚ) else 1/2)) / (n : ℚ)) := by
    push_cast
    ring
  rw [htt, if_pos hcond,
    equatPix_eval n ((p - ncap n) / (4*n) + n) ((p - ncap n) % (4*n) + 1) hn hi1 hi2 hp1 hp2]
  set qq := (p - ncap n) / (4*n) with hqdef
  set rr := (p - ncap n) % (4*n) with hrdef
  have hfin : p = ncap n + (4*n*qq + rr) := by
    have hdm : 4*n*qq + rr = p - ncap n := by
      rw [hqdef, hrdef]
      exact Nat.div_add_mod _ _
    omega
  rw [hfin]
  push_cast
  ring

/-- Claim C8 main theorem body: the healpy RING pixel round trip. -/
theorem roundtrip (n p : ℕ) (hn : 1 ≤ n) (hp : p < npix n) :
    sky2hpix n (hpix2sky n p) = (p : ℤ) := by
  rw [sky2hpix, hpix2sky]
  by_cases h1 : p < ncap n
  · exact roundtrip_north n p hn h1
  · by_cases h2 : p < npix n - ncap n
    · exact roundtrip_equat n p hn h1 h2
    · exact roundtrip_south n p hn h2 hp

end PyGDSM.Healpix

namespace PyGDSM

theorem foldl_min_le_init (l : List ℚ) (a : ℚ) : l.foldl min a ≤ a := by
  induction l generalizing a with
  | nil => simp
  | cons x xs ih => exact le_trans (ih (min a x)) (min_le_left a x)

theorem foldl_min_le_mem (l : List ℚ) (a x : ℚ) (hx : x ∈ l) : l.foldl min a ≤ x := by
  induction l generalizing a with
  | nil => cases hx
  | cons y ys ih =>
    rcases List.mem_cons.mp hx with h | h
    · subst h
      exact le_trans (foldl_min_le_init ys (min a x)) (min_le_right a x)
    · exact ih (min a y) h

theorem foldl_min_mem (l : List ℚ) (a : ℚ) : l.foldl min a = a ∨ l.foldl min a ∈ l := by
  induction l generalizing a with
  | nil => left; rfl
  | cons y ys ih =>
    have hfold : (y :: ys).foldl min a = ys.foldl min (min a y) := rfl
    rcases ih (min a y) with h | h
    · rcases min_cases a y with ⟨he, _⟩ | ⟨he, _⟩
      · left
        rw [hfold, h, he]
      · right
        rw [hfold, h, he]
        exact List.mem_cons_self y ys
    · right
      rw [hfold]
      exact List.mem_cons_of_mem y h

theorem init_le_foldl_max (l : List ℚ) (a : ℚ) : a ≤ l.foldl max a := by
  induction l generalizing a with
  | nil => simp
  | cons x xs ih => exact le_trans (le_max_left a x) (ih (max a x))

theorem mem_le_foldl_max (l : List ℚ) (a x : ℚ) (hx : x ∈ l) : x ≤ l.foldl max a := by
  induction l generalizing a with
  | nil => cases hx
  | cons y ys ih =>
    rcases List.mem_cons.mp hx with h | h
    · subst h
      exact le_trans (le_max_right a x) (init_le_foldl_max ys (max a x))
    · exact ih (max a y) h

theorem foldl_max_mem (l : List ℚ) (a : ℚ) : l.foldl max a = a ∨ l.foldl max a ∈ l := by
  induction l generalizing a with
  | nil => left; rfl
  | cons y ys ih =>
    have hfold : (y :: ys).foldl max a = ys.foldl max (max a y) := rfl
    rcases ih (max a y) with h | h
    · rcases max_cases a y with ⟨he, _⟩ | ⟨he, _⟩
      · left
        rw [hfold, h, he]
      · right
        rw [hfold, h, he]
        exact List.mem_cons_self y ys
    · right
      rw [hfold]
      exact List.mem_cons_of_mem y h

/-- The `np.min`/`np.max` bounds check of `generate` fails exactly when some
requested frequency lies strictly outside `[lo, hi]`. -/
theorem bound_check_iff (l : List ℚ) (h : l ≠ []) (lo hi : ℚ) :
    (npMin l < lo ∨ hi < npMax l) ↔ ∃ f ∈ l, f < lo ∨ hi < f := by
  match l, h with
  | f :: fs, _ =>
    constructor
    · rintro (hmin | hmax)
      · rcases foldl_min_mem fs f with he | he
        · exact ⟨f, List.mem_cons_self f fs, Or.inl (by simpa [npMin, he] using hmin)⟩
        · exact ⟨fs.foldl min f, List.mem_cons_of_mem f he, Or.inl hmin⟩
      · rcases foldl_max_mem fs f with he | he
        · exact ⟨f, List.mem_cons_self f fs, Or.inr (by simpa [npMax, he] using hmax)⟩
        · exact ⟨fs.foldl max f, List.mem_cons_of_mem f he, Or.inr hmax⟩
    · rintro ⟨x, hx, hout⟩
      rcases List.mem_cons.mp hx with rfl | hx'
      · rcases hout with h1 | h1
        · exact Or.inl (lt_of_le_of_lt (foldl_min_le_init fs x) h1)
        · exact Or.inr (lt_of_lt_of_le h1 (init_le_foldl_max fs x))
      · rcases hout with h1 | h1
        · exact Or.inl (lt_of_le_of_lt (foldl_min_le_mem fs f x hx') h1)
        · exact Or.inr (lt_of_lt_of_le h1 (mem_le_foldl_max fs f x hx'))

end PyGDSM

namespace PyGDSM

theorem exists_map_mul_iff (l : List ℚ) (c lo hi : ℚ) :
    (∃ g ∈ l.map (· * c), g < lo ∨ hi < g) ↔ ∃ f ∈ l, f * c < lo ∨ hi < f * c := by
  constructor
  · rintro ⟨g, hg, hP⟩
    obtain ⟨f, hf, rfl⟩ := List.mem_map.mp hg
    exact ⟨f, hf, hP⟩
  · rintro ⟨f, hf, hP⟩
    exact ⟨f * c, List.mem_map.mpr ⟨f, hf, rfl⟩, hP⟩

theorem map_isEmpty_false {l : List ℚ} (h : l ≠ []) (c : ℚ) :
    (l.map (· * c)).isEmpty = false := by
  match l, h with
  | x :: xs, _ => rfl

/-- `GlobalSkyModel.generate` raises exactly when some converted frequency is
strictly outside `[10, 94000]` MHz. -/
theorem gsm08_error_iff (env : NumEnv) (m : GSM08.State) (freqs : FreqsIn)
    (h : freqs.toList ≠ []) :
    isOk (GSM08.generate env m freqs) = false ↔
      ∃ f ∈ freqs.toList, f * m.freq_unit.toMHz < 10 ∨ 94000 < f * m.freq_unit.toMHz := by
  have hfl : freqs.toList.map (· * m.freq_unit.toMHz) ≠ [] := by
    intro hc
    exact h (List.map_eq_nil.mp hc)
  rw [← exists_map_mul_iff freqs.toList m.freq_unit.toMHz 10 94000,
    ← bound_check_iff _ hfl 10 94000]
  simp only [GSM08.generate, map_isEmpty_false h, Bool.false_eq_true, if_false]
  by_cases hc : npMin (freqs.toList.map (· * m.freq_unit.toMHz)) < 10 ∨
      94000 < npMax (freqs.toList.map (· * m.freq_unit.toMHz))
  · rw [if_pos hc]
    simpa [isOk] using hc
  · rw [if_neg hc]
    simpa [isOk] using hc

/-- `LowFrequencySkyModel.generate` raises exactly when some converted
frequency is strictly outside `[10, 408]` MHz. -/
theorem lfsm_error_iff (env : NumEnv) (m : LFSM.State) (freqs : FreqsIn)
    (h : freqs.toList ≠ []) :
    isOk (LFSM.generate env m freqs) = false ↔
      ∃ f ∈ freqs.toList, f * m.freq_unit.toMHz < 10 ∨ 408 < f * m.freq_unit.toMHz := by
  have hfl : freqs.toList.map (· * m.freq_unit.toMHz) ≠ [] := by
    intro hc
    exact h (List.map_eq_nil.mp hc)
  rw [← exists_map_mul_iff freqs.toList m.freq_unit.toMHz 10 408,
    ← bound_check_iff _ hfl 10 408]
  simp only [LFSM.generate, map_isEmpty_false h, Bool.false_eq_true, if_false]
  by_cases hc : npMin (freqs.toList.map (· * m.freq_unit.toMHz)) < 10 ∨
      408 < npMax (freqs.toList.map (· * m.freq_unit.toMHz))
  · rw [if_pos hc]
    simpa [isOk] using hc
  · rw [if_neg hc]
    simpa [isOk] using hc

/-- `GlobalSkyModel16.generate` raises exactly when some converted frequency
is strictly outside `[0.01, 5000]` GHz. -/
theorem gsm16_error_iff (env : NumEnv) (m : GSM16.State) (freqs : FreqsIn)
    (h : freqs.toList ≠ []) :
    isOk (GSM16.generate env m freqs) = false ↔
      ∃ f ∈ freqs.toList, f * m.freq_unit.toGHz < 1/100 ∨ 5000 < f * m.freq_unit.toGHz := by
  have hfl : freqs.toList.map (· * m.freq_unit.toGHz) ≠ [] := by
    intro hc
    exact h (List.map_eq_nil.mp hc)
  rw [← exists_map_mul_iff freqs.toList m.freq_unit.toGHz (1/100) 5000,
    ← bound_check_iff _ hfl (1/100) 5000]
  simp only [GSM16.generate, map_isEmpty_false h, Bool.false_eq_true, if_false]
  by_cases hc : npMin (freqs.toList.map (· * m.freq_unit.toGHz)) < 1/100 ∨
      5000 < npMax (freqs.toList.map (· * m.freq_unit.toGHz))
  · rw [if_pos hc]
    simpa [isOk] using hc
  · rw [if_neg hc]
    simpa [isOk] using hc

end PyGDSM

namespace PyGDSM

/-- C1: for every PCA-based sky model (GSM2008, LFSM, GSM2016) and every
nonempty requested frequency list, `generate` raises the band error exactly
when some frequency lies strictly outside the model's declared band
(10 MHz-94 GHz, 10 MHz-408 MHz, 10 MHz-5 THz respectively, after conversion
from the configured frequency unit), and succeeds whenever every frequency
lies inside the band, boundaries included. -/
theorem claim_C1_band_validation (env : NumEnv) (m8 : GSM08.State) (mL : LFSM.State)
    (m16 : GSM16.State) (freqs : FreqsIn) (h : freqs.toList ≠ []) :
    (isOk (GSM08.generate env m8 freqs) = false ↔
      ∃ f ∈ freqs.toList, f * m8.freq_unit.toMHz < 10 ∨ 94000 < f * m8.freq_unit.toMHz) ∧
    (isOk (LFSM.generate env mL freqs) = false ↔
      ∃ f ∈ freqs.toList, f * mL.freq_unit.toMHz < 10 ∨ 408 < f * mL.freq_unit.toMHz) ∧
    (isOk (GSM16.generate env m16 freqs) = false ↔
      ∃ f ∈ freqs.toList, f * m16.freq_unit.toGHz < 1/100 ∨ 5000 < f * m16.freq_unit.toGHz) :=
  ⟨gsm08_error_iff env m8 freqs h, lfsm_error_iff env mL freqs h,
    gsm16_error_iff env m16 freqs h⟩

/-- Witness for C1: concrete evaluations — an out-of-band frequency raises,
and boundary frequencies succeed, on each of the three models. -/
theorem claim_C1_witness :
    isOk (GSM08.generate envTriv m8Triv (FreqsIn.vector [5])) = false ∧
    isOk (GSM08.generate envTriv m8Triv (FreqsIn.vector [10, 94000])) = true ∧
    isOk (LFSM.generate envTriv mLTriv (FreqsIn.vector [409])) = false ∧
    isOk (LFSM.generate envTriv mLTriv (FreqsIn.vector [10, 408])) = true ∧
    isOk (GSM16.generate envTriv m16Triv (FreqsIn.vector [9])) = false ∧
    isOk (GSM16.generate envTriv m16Triv (FreqsIn.vector [10, 5000000])) = true := by
  have hb : ∀ b : Bool, ¬ b = false → b = true := by decide
  have hu8 : m8Triv.freq_unit = FreqUnit.mhz := rfl
  have huL : mLTriv.freq_unit = FreqUnit.mhz := rfl
  have hu16 : m16Triv.freq_unit = FreqUnit.mhz := rfl
  refine ⟨?_, ?_, ?_, ?_, ?_, ?_⟩
  · exact (claim_C1_band_validation envTriv m8Triv mLTriv m16Triv (FreqsIn.vector [5])
      (by simp [FreqsIn.toList])).1.mpr
      ⟨5, by simp [FreqsIn.toList], Or.inl (by rw [hu8]; norm_num [FreqUnit.toMHz])⟩
  · apply hb
    intro hf
    obtain ⟨f, hfm, hc⟩ := (claim_C1_band_validation envTriv m8Triv mLTriv m16Triv
      (FreqsIn.vector [10, 94000]) (by simp [FreqsIn.toList])).1.mp hf
    rw [hu8] at hc
    simp [FreqsIn.toList] at hfm
    rcases hfm with rfl | rfl <;> norm_num [FreqUnit.toMHz] at hc
  · exact (claim_C1_band_validation envTriv m8Triv mLTriv m16Triv (FreqsIn.vector [409])
      (by simp [FreqsIn.toList])).2.1.mpr
      ⟨409, by simp [FreqsIn.toList], Or.inr (by rw [huL]; norm_num [FreqUnit.toMHz])⟩
  · apply hb
    intro hf
    obtain ⟨f, hfm, hc⟩ := (claim_C1_band_validation envTriv m8Triv mLTriv m16Triv
      (FreqsIn.vector [10, 408]) (by simp [FreqsIn.toList])).2.1.mp hf
    rw [huL] at hc
    simp [FreqsIn.toList] at hfm
    rcases hfm with rfl | rfl <;> norm_num [FreqUnit.toMHz] at hc
  · exact (claim_C1_band_validation envTriv m8Triv mLTriv m16Triv (FreqsIn.vector [9])
      (by simp [FreqsIn.toList])).2.2.mpr
      ⟨9, by simp [FreqsIn.toList], Or.inl (by rw [hu16]; norm_num [FreqUnit.toGHz])⟩
  · apply hb
    intro hf
    obtain ⟨f, hfm, hc⟩ := (claim_C1_band_validation envTriv m8Triv mLTriv m16Triv
      (FreqsIn.vector [10, 5000000]) (by simp [FreqsIn.toList])).2.2.mp hf
    rw [hu16] at hc
    simp [FreqsIn.toList] at hfm
    rcases hfm with rfl | rfl <;> norm_num [FreqUnit.toGHz] at hc

end PyGDSM

namespace PyGDSM

/-- Shape of the GSM2008 output: squeezed to `(npix,)` whenever exactly one
frequency was requested, `(k, npix)` for `k ≥ 2`. -/
theorem gsm08_shape (env : NumEnv) (m : GSM08.State) (freqs : FreqsIn)
    (st : GSM08.State) (out : GenOut)
    (hok : GSM08.generate env m freqs = .ok (st, out)) :
    (freqs.toList.length = 1 →
      ∃ l, out = GenOut.flat l ∧ l.length = m.pca_map_data.length) ∧
    (2 ≤ freqs.toList.length →
      ∃ ls, out = GenOut.stacked ls ∧ ls.length = freqs.toList.length ∧
        ∀ r ∈ ls, r.length = m.pca_map_data.length) := by
  simp only [GSM08.generate] at hok
  split at hok
  · exact absurd hok (by simp)
  · split at hok
    · exact absurd hok (by simp)
    · rw [Except.ok.injEq, Prod.mk.injEq] at hok
      obtain ⟨-, hout⟩ := hok
      subst hout
      have hlen : (freqs.toList.map (· * m.freq_unit.toMHz)).length = freqs.toList.length :=
        List.length_map _ _
      have hrowlen : ∀ f : ℚ, (GSM08.synthRow env m f).length = m.pca_map_data.length := by
        intro f
        simp [GSM08.synthRow]
      cases hcmb : m.include_cmb <;>
        simp only [hcmb, Bool.false_eq_true, if_false, if_true] <;>
        by_cases hl : (freqs.toList.map (· * m.freq_unit.toMHz)).length = 1
      · rw [if_pos hl]
        obtain ⟨f, hf⟩ := List.length_eq_one.mp hl
        rw [hf]
        refine ⟨fun _ => ⟨_, rfl, by simp [hrowlen]⟩, fun h2 => ?_⟩
        rw [hlen] at hl
        omega
      · rw [if_neg hl]
        refine ⟨fun h1 => ?_, fun _ => ⟨_, rfl, by simp [hlen], ?_⟩⟩
        · rw [hlen] at hl
          exact absurd h1 hl
        · intro r hr
          obtain ⟨f, -, rfl⟩ := List.mem_map.mp hr
          exact hrowlen f
      · rw [if_pos hl]
        obtain ⟨f, hf⟩ := List.length_eq_one.mp hl
        rw [hf]
        refine ⟨fun _ => ⟨_, rfl, by simp [hrowlen]⟩, fun h2 => ?_⟩
        rw [hlen] at hl
        omega
      · rw [if_neg hl]
        refine ⟨fun h1 => ?_, fun _ => ⟨_, rfl, by simp [hlen], ?_⟩⟩
        · rw [hlen] at hl
          exact absurd h1 hl
        · intro r hr
          obtain ⟨r0, hr0, rfl⟩ := List.mem_map.mp hr
          obtain ⟨f, -, rfl⟩ := List.mem_map.mp hr0
          simp [hrowlen]

/-- Shape of the LFSM output (the healpy resampling is length-preserving). -/
theorem lfsm_shape (env : NumEnv) (m : LFSM.State) (freqs : FreqsIn)
    (st : LFSM.State) (out : GenOut)
    (hrot : ∀ l, (env.rotCG l).length = l.length)
    (hok : LFSM.generate env m freqs = .ok (st, out)) :
    (freqs.toList.length = 1 →
      ∃ l, out = GenOut.flat l ∧ l.length = m.pca_map.length) ∧
    (2 ≤ freqs.toList.length →
      ∃ ls, out = GenOut.stacked ls ∧ ls.length = freqs.toList.length ∧
        ∀ r ∈ ls, r.length = m.pca_map.length) := by
  simp only [LFSM.generate] at hok
  split at hok
  · exact absurd hok (by simp)
  · split at hok
    · exact absurd hok (by simp)
    · rw [Except.ok.injEq, Prod.mk.injEq] at hok
      obtain ⟨-, hout⟩ := hok
      subst hout
      have hlen : (freqs.toList.map (· * m.freq_unit.toMHz)).length = freqs.toList.length :=
        List.length_map _ _
      have hrowlen : ∀ f : ℚ, (env.rotCG (LFSM.synthRow env m f)).length = m.pca_map.length := by
        intro f
        rw [hrot]
        simp [LFSM.synthRow]
      cases hcmb : m.include_cmb <;>
        simp only [hcmb, Bool.true_eq_false, if_false, if_true, decide_True, decide_False] <;>
        by_cases hl : (freqs.toList.map (· * m.freq_unit.toMHz)).length = 1
      · rw [if_pos hl]
        obtain ⟨f, hf⟩ := List.length_eq_one.mp hl
        rw [hf]
        refine ⟨fun _ => ⟨_, rfl, by simp [GenOut.emap, hrowlen]⟩, fun h2 => ?_⟩
        rw [hlen] at hl
        omega
      · rw [if_neg hl]
        refine ⟨fun h1 => ?_, fun _ => ⟨_, rfl, by simp [GenOut.emap, hlen], ?_⟩⟩
        · rw [hlen] at hl
          exact absurd h1 hl
        · intro r hr
          obtain ⟨r0, hr0, rfl⟩ := List.mem_map.mp hr
          obtain ⟨f, -, rfl⟩ := List.mem_map.mp hr0
          simp [hrowlen]
      · rw [if_pos hl]
        obtain ⟨f, hf⟩ := List.length_eq_one.mp hl
        rw [hf]
        refine ⟨fun _ => ⟨_, rfl, by simp [GenOut.emap, hrowlen]⟩, fun h2 => ?_⟩
        rw [hlen] at hl
        omega
      · rw [if_neg hl]
        refine ⟨fun h1 => ?_, fun _ => ⟨_, rfl, by simp [GenOut.emap, hlen], ?_⟩⟩
        · rw [hlen] at hl
          exact absurd h1 hl
        · intro r hr
          obtain ⟨f, -, rfl⟩ := List.mem_map.mp hr
          exact hrowlen f

/-- Shape of the GSM2016 output (the NEST→RING reorder is length-preserving). -/
theorem gsm16_shape (env : NumEnv) (m : GSM16.State) (freqs : FreqsIn)
    (st : GSM16.State) (out : GenOut)
    (hre : ∀ l, (env.reorderN2R l).length = l.length)
    (hok : GSM16.generate env m freqs = .ok (st, out)) :
    (freqs.toList.length = 1 →
      ∃ l, out = GenOut.flat l ∧ l.length = (m.map_ni.headD []).length) ∧
    (2 ≤ freqs.toList.length →
      ∃ ls, out = GenOut.stacked ls ∧ ls.length = freqs.toList.length ∧
        ∀ r ∈ ls, r.length = (m.map_ni.headD []).length) := by
  simp only [GSM16.generate] at hok
  split at hok
  · exact absurd hok (by simp)
  · split at hok
    · exact absurd hok (by simp)
    · rw [Except.ok.injEq, Prod.mk.injEq] at hok
      obtain ⟨-, hout⟩ := hok
      subst hout
      have hlen : (freqs.toList.map (· * m.freq_unit.toGHz)).length = freqs.toList.length :=
        List.length_map _ _
      have hrowlen : ∀ f : ℚ,
          ((if m.include_cmb then
              (env.reorderN2R (GSM16.synthRow env m f)).map
                (· + GSM16.K_CMB2MJysr env GSM16.T (1e9 * f))
            else env.reorderN2R (GSM16.synthRow env m f)).map
            (· * GSM16.conversion env m f)).length = (m.map_ni.headD []).length := by
        intro f
        have hs : (GSM16.synthRow env m f).length = (m.map_ni.headD []).length := by
          simp [GSM16.synthRow]
        cases m.include_cmb <;> simp [hre, hs]
      by_cases hl : (freqs.toList.map (· * m.freq_unit.toGHz)).length = 1
      · rw [if_pos hl]
        obtain ⟨f, hf⟩ := List.length_eq_one.mp hl
        rw [hf]
        refine ⟨fun _ => ⟨_, rfl, by simpa using hrowlen f⟩, fun h2 => ?_⟩
        rw [hlen] at hl
        omega
      · rw [if_neg hl]
        refine ⟨fun h1 => ?_, fun _ => ⟨_, rfl, by simp [hlen], ?_⟩⟩
        · rw [hlen] at hl
          exact absurd h1 hl
        · intro r hr
          obtain ⟨f, -, rfl⟩ := List.mem_map.mp hr
          exact hrowlen f

end PyGDSM

namespace PyGDSM

/-- C4 (amended): each model's `generate` squeezes the output to a 1-dim
`(npix,)` array whenever exactly one frequency was requested — whether passed
as a genuine scalar or as an explicit length-1 sequence — and returns a
`(k, npix)` array exactly for `k ≥ 2` requested frequencies. -/
theorem claim_C4_output_shape (env : NumEnv)
    (hrot : ∀ l, (env.rotCG l).length = l.length)
    (hre : ∀ l, (env.reorderN2R l).length = l.length)
    (m8 : GSM08.State) (mL : LFSM.State) (m16 : GSM16.State) (freqs : FreqsIn)
    (st8 : GSM08.State) (out8 : GenOut) (stL : LFSM.State) (outL : GenOut)
    (st16 : GSM16.State) (out16 : GenOut)
    (h8 : GSM08.generate env m8 freqs = .ok (st8, out8))
    (hL : LFSM.generate env mL freqs = .ok (stL, outL))
    (h16 : GSM16.generate env m16 freqs = .ok (st16, out16)) :
    ((freqs.toList.length = 1 →
        ∃ l, out8 = GenOut.flat l ∧ l.length = m8.pca_map_data.length) ∧
      (2 ≤ freqs.toList.length →
        ∃ ls, out8 = GenOut.stacked ls ∧ ls.length = freqs.toList.length ∧
          ∀ r ∈ ls, r.length = m8.pca_map_data.length)) ∧
    ((freqs.toList.length = 1 →
        ∃ l, outL = GenOut.flat l ∧ l.length = mL.pca_map.length) ∧
      (2 ≤ freqs.toList.length →
        ∃ ls, outL = GenOut.stacked ls ∧ ls.length = freqs.toList.length ∧
          ∀ r ∈ ls, r.length = mL.pca_map.length)) ∧
    ((freqs.toList.length = 1 →
        ∃ l, out16 = GenOut.flat l ∧ l.length = (m16.map_ni.headD []).length) ∧
      (2 ≤ freqs.toList.length →
        ∃ ls, out16 = GenOut.stacked ls ∧ ls.length = freqs.toList.length ∧
          ∀ r ∈ ls, r.length = (m16.map_ni.headD []).length)) :=
  ⟨gsm08_shape env m8 freqs st8 out8 h8,
   lfsm_shape env mL freqs stL outL hrot hL,
   gsm16_shape env m16 freqs st16 out16 hre h16⟩

/-- C4 counterexample: an explicitly passed length-1 sequence `[100]` does
NOT yield a `(1, npix)` array — GSM2008 squeezes it to 1-dim, because the
squeeze condition is `map_out.shape[0] == 1`, independent of whether the
input was a scalar. -/
theorem claim_C4_counterexample :
    (GSM08.generate envTriv m8Triv (FreqsIn.vector [100])).map
      (fun r => r.2.isStacked) = .ok false := by
  have hne : (FreqsIn.vector [100]).toList ≠ ([] : List ℚ) := by
    simp [FreqsIn.toList]
  have hiff := gsm08_error_iff envTriv m8Triv (FreqsIn.vector [100]) hne
  rcases hg : GSM08.generate envTriv m8Triv (FreqsIn.vector [100]) with e | r
  · exfalso
    have hfail : isOk (GSM08.generate envTriv m8Triv (FreqsIn.vector [100])) = false := by
      rw [hg]
      rfl
    obtain ⟨f, hf, hc⟩ := hiff.mp hfail
    simp [FreqsIn.toList] at hf
    subst hf
    have hu : m8Triv.freq_unit = FreqUnit.mhz := rfl
    rw [hu] at hc
    norm_num [FreqUnit.toMHz] at hc
  · obtain ⟨st, out⟩ := r
    obtain ⟨l, hflat, -⟩ :=
      (gsm08_shape envTriv m8Triv (FreqsIn.vector [100]) st out hg).1
        (by simp [FreqsIn.toList])
    simp [Except.map, hflat, GenOut.isStacked]

/-- Witness for C4 (amended): at two frequencies all three models return a
stacked `(2, npix)` array; at an explicit length-1 sequence GSM2008 returns
a squeezed 1-dim array. -/
theorem claim_C4_witness :
    ((GSM08.generate envTriv m8Triv (FreqsIn.vector [100, 200])).map
      (fun r => r.2.isStacked) = .ok true) ∧
    ((LFSM.generate envTriv mLTriv (FreqsIn.vector [100, 200])).map
      (fun r => r.2.isStacked) = .ok true) ∧
    ((GSM16.generate envTriv m16Triv (FreqsIn.vector [100, 200])).map
      (fun r => r.2.isStacked) = .ok true) ∧
    ((GSM08.generate envTriv m8Triv (FreqsIn.scalar 100)).map
      (fun r => r.2.isStacked) = .ok false) := by
  have hid : ∀ l : List ℚ, (envTriv.rotCG l).length = l.length := fun _ => rfl
  have hid2 : ∀ l : List ℚ, (envTriv.reorderN2R l).length = l.length := fun _ => rfl
  have hnotfail : ∀ (freqs : FreqsIn), freqs.toList ≠ [] →
      (∀ f ∈ freqs.toList, 10 ≤ f ∧ f ≤ 408) →
      isOk (GSM08.generate envTriv m8Triv freqs) = true ∧
      isOk (LFSM.generate envTriv mLTriv freqs) = true ∧
      isOk (GSM16.generate envTriv m16Triv freqs) = true := by
    intro freqs hne hin
    have hb : ∀ b : Bool, ¬ b = false → b = true := by decide
    refine ⟨hb _ ?_, hb _ ?_, hb _ ?_⟩
    · intro hf
      obtain ⟨f, hfm, hc⟩ := (gsm08_error_iff envTriv m8Triv freqs hne).mp hf
      obtain ⟨hlo, hhi⟩ := hin f hfm
      have hu : m8Triv.freq_unit = FreqUnit.mhz := rfl
      rw [hu] at hc
      simp only [FreqUnit.toMHz, mul_one] at hc
      rcases hc with hc | hc <;> linarith
    · intro hf
      obtain ⟨f, hfm, hc⟩ := (lfsm_error_iff envTriv mLTriv freqs hne).mp hf
      obtain ⟨hlo, hhi⟩ := hin f hfm
      have hu : mLTriv.freq_unit = FreqUnit.mhz := rfl
      rw [hu] at hc
      simp only [FreqUnit.toMHz, mul_one] at hc
      rcases hc with hc | hc <;> linarith
    · intro hf
      obtain ⟨f, hfm, hc⟩ := (gsm16_error_iff envTriv m16Triv freqs hne).mp hf
      obtain ⟨hlo, hhi⟩ := hin f hfm
      have hu : m16Triv.freq_unit = FreqUnit.mhz := rfl
      rw [hu] at hc
      simp only [FreqUnit.toGHz] at hc
      rcases hc with hc | hc <;> linarith
  obtain ⟨hok8, hokL, hok16⟩ := hnotfail (FreqsIn.vector [100, 200])
    (by simp [FreqsIn.toList])
    (by
      intro f hf
      simp [FreqsIn.toList] at hf
      rcases hf with rfl | rfl <;> norm_num)
  obtain ⟨hok8s, hokLs, hok16s⟩ := hnotfail (FreqsIn.scalar 100)
    (by simp [FreqsIn.toList])
    (by
      intro f hf
      simp [FreqsIn.toList] at hf
      subst hf
      norm_num)
  rcases hg8 : GSM08.generate envTriv m8Triv (FreqsIn.vector [100, 200]) with e | ⟨st8, out8⟩
  · rw [hg8] at hok8
    exact absurd hok8 (by simp [isOk])
  rcases hgL : LFSM.generate envTriv mLTriv (FreqsIn.vector [100, 200]) with e | ⟨stL, outL⟩
  · rw [hgL] at hokL
    exact absurd hokL (by simp [isOk])
  rcases hg16 : GSM16.generate envTriv m16Triv (FreqsIn.vector [100, 200]) with e | ⟨st16, out16⟩
  · rw [hg16] at hok16
    exact absurd hok16 (by simp [isOk])
  rcases hg8s : GSM08.generate envTriv m8Triv (FreqsIn.scalar 100) with e | ⟨st8s, out8s⟩
  · rw [hg8s] at hok8s
    exact absurd hok8s (by simp [isOk])
  rcases hgLs : LFSM.generate envTriv mLTriv (FreqsIn.scalar 100) with e | ⟨stLs, outLs⟩
  · rw [hgLs] at hokLs
    exact absurd hokLs (by simp [isOk])
  rcases hg16s : GSM16.generate envTriv m16Triv (FreqsIn.scalar 100) with e | ⟨st16s, out16s⟩
  · rw [hg16s] at hok16s
    exact absurd hok16s (by simp [isOk])
  obtain ⟨⟨-, hsh8⟩, ⟨-, hshL⟩, ⟨-, hsh16⟩⟩ :=
    claim_C4_output_shape envTriv hid hid2 m8Triv mLTriv m16Triv
      (FreqsIn.vector [100, 200]) st8 out8 stL outL st16 out16 hg8 hgL hg16
  obtain ⟨⟨hsh8s, -⟩, -, -⟩ :=
    claim_C4_output_shape envTriv hid hid2 m8Triv mLTriv m16Triv
      (FreqsIn.scalar 100) st8s out8s stLs outLs st16s out16s hg8s hgLs hg16s
  refine ⟨?_, ?_, ?_, ?_⟩
  · obtain ⟨ls, ho, -, -⟩ := hsh8 (by simp [FreqsIn.toList])
    simp [Except.map, ho, GenOut.isStacked]
  · obtain ⟨ls, ho, -, -⟩ := hshL (by simp [FreqsIn.toList])
    simp [Except.map, ho, GenOut.isStacked]
  · obtain ⟨ls, ho, -, -⟩ := hsh16 (by simp [FreqsIn.toList])
    simp [Except.map, ho, GenOut.isStacked]
  · obtain ⟨l, ho, -⟩ := hsh8s (by simp [FreqsIn.toList])
    simp [Except.map, ho, GenOut.isStacked]

end PyGDSM

namespace PyGDSM

theorem getD_map {α β : Type} (d : α) (dB : β) (l : List α) (g : α → β) (i : ℕ)
    (h : i < l.length) : (l.map g).getD i dB = g (l.getD i d) := by
  rw [List.getD_eq_getElem l d h, List.getD_eq_getElem _ dB (by simpa using h),
    List.getElem_map]

/-- C2 (amended): with the CMB term excluded, the map returned by GSM2008's
`generate` satisfies `map[f,p] = exp(spl_scaling(ln f)) * sum_c spl_c(ln f) *
basis[p,c]` at every frequency index and pixel; LFSM's synthesized
per-frequency map (before its equatorial→galactic regridding and CMB
adjustment) satisfies the same contract. -/
theorem claim_C2_synthesis_formula (env : NumEnv) (m8 : GSM08.State) (mL : LFSM.State)
    (freqs : FreqsIn) (st8 : GSM08.State) (out8 : GenOut)
    (hcmb : m8.include_cmb = false)
    (h8 : GSM08.generate env m8 freqs = .ok (st8, out8)) :
    (∀ fi p, fi < freqs.toList.length → p < m8.pca_map_data.length →
      out8.valueAt fi p =
        env.exp (m8.interp_comps.1
            (env.ln (freqs.toList.getD fi 0 * m8.freq_unit.toMHz))) *
          dotQ [m8.interp_comps.2.1
              (env.ln (freqs.toList.getD fi 0 * m8.freq_unit.toMHz)),
            m8.interp_comps.2.2.1
              (env.ln (freqs.toList.getD fi 0 * m8.freq_unit.toMHz)),
            m8.interp_comps.2.2.2
              (env.ln (freqs.toList.getD fi 0 * m8.freq_unit.toMHz))]
            (m8.pca_map_data.getD p [])) ∧
    (∀ f p, p < mL.pca_map.length →
      (LFSM.synthRow env mL f).getD p 0 =
        env.exp (mL.scaleFunc (env.ln f)) *
          dotQ (mL.compFuncs.map (fun cf => cf (env.ln f))) (mL.pca_map.getD p [])) := by
  constructor
  · simp only [GSM08.generate] at h8
    split at h8
    · exact absurd h8 (by simp)
    · split at h8
      · exact absurd h8 (by simp)
      · rw [Except.ok.injEq, Prod.mk.injEq] at h8
        obtain ⟨-, hout⟩ := h8
        subst hout
        rw [hcmb]
        simp only [Bool.false_eq_true, if_false]
        intro fi p hfi hp
        have hlen : (freqs.toList.map (· * m8.freq_unit.toMHz)).length =
            freqs.toList.length := List.length_map _ _
        have hrow : ∀ f : ℚ, (GSM08.synthRow env m8 f).getD p 0 =
            env.exp (m8.interp_comps.1 (env.ln f)) *
              dotQ [m8.interp_comps.2.1 (env.ln f), m8.interp_comps.2.2.1 (env.ln f),
                m8.interp_comps.2.2.2 (env.ln f)] (m8.pca_map_data.getD p []) := by
          intro f
          rw [GSM08.synthRow]
          exact getD_map [] 0 m8.pca_map_data _ p hp
        by_cases hl : (freqs.toList.map (· * m8.freq_unit.toMHz)).length = 1
        · rw [if_pos hl]
          have hfi0 : fi = 0 := by
            rw [hlen] at hl
            omega
          subst hfi0
          have hpos : 0 < freqs.toList.length := by omega
          obtain ⟨f0, hf0⟩ := List.length_eq_one.mp hl
          have hget : freqs.toList.getD 0 0 * m8.freq_unit.toMHz = f0 := by
            have h1 : (freqs.toList.map (· * m8.freq_unit.toMHz)).getD 0 0 = f0 := by
              rw [hf0]
              rfl
            rwa [getD_map 0 0 freqs.toList _ 0 hpos] at h1
          rw [hf0, hget]
          simp only [List.map_cons, List.map_nil, List.headD_cons, GenOut.valueAt, GenOut.rows,
            List.getD_cons_zero]
          exact hrow f0
        · rw [if_neg hl]
          simp only [GenOut.valueAt, GenOut.rows]
          rw [getD_map 0 [] (freqs.toList.map (· * m8.freq_unit.toMHz)) _ fi
              (by rw [hlen]; exact hfi),
            hrow, getD_map 0 0 freqs.toList _ fi hfi]
  · intro f p hp
    rw [LFSM.synthRow]
    rw [getD_map 0 0 (mL.pca_map.map fun prow =>
        dotQ (mL.compFuncs.map fun cf => cf (env.ln f)) prow) _ p (by simpa using hp),
      getD_map [] 0 mL.pca_map _ p hp]
    ring

end PyGDSM

namespace PyGDSM

/-- C2 counterexample: with the CMB term included (a legal configuration),
the map GSM2008's `generate` returns does NOT equal the per-frequency
weighted combination `scale[f] * sum_c weights[f,c] * basis[c,p]` — the
constant 2.725 has been added on top (14.725 vs 12 at pixel 0). -/
theorem claim_C2_counterexample :
    (GSM08.generate envTriv m8TrivCmb (FreqsIn.vector [100])).map
      (fun r => r.2.valueAt 0 0) = .ok 14.725 ∧
    envTriv.exp (m8TrivCmb.interp_comps.1
        (envTriv.ln (100 * m8TrivCmb.freq_unit.toMHz))) *
      dotQ [m8TrivCmb.interp_comps.2.1 (envTriv.ln (100 * m8TrivCmb.freq_unit.toMHz)),
        m8TrivCmb.interp_comps.2.2.1 (envTriv.ln (100 * m8TrivCmb.freq_unit.toMHz)),
        m8TrivCmb.interp_comps.2.2.2 (envTriv.ln (100 * m8TrivCmb.freq_unit.toMHz))]
        (m8TrivCmb.pca_map_data.getD 0 []) = 12 ∧
    (14.725 : ℚ) ≠ 12 := by
  refine ⟨?_, ?_, by norm_num⟩
  · rw [show GSM08.generate envTriv m8TrivCmb (FreqsIn.vector [100]) =
        GSM08.generate envTriv m8TrivCmb (FreqsIn.vector [100]) from rfl]
    simp only [GSM08.generate, m8TrivCmb, GSM08.init, GSM08.update_interpolants, GSM08.build,
      envTriv, FreqsIn.toList, FreqUnit.toMHz, GSM08.synthRow, dotQ, col, T_CMB]
    norm_num [npMin, npMax, Except.map, GenOut.valueAt, GenOut.rows, GSM08.synthRow, dotQ]
  · simp only [m8TrivCmb, GSM08.init, GSM08.update_interpolants, GSM08.build, envTriv, dotQ, col]
    norm_num

end PyGDSM

namespace PyGDSM

/-- Witness for C2 (amended): concrete evaluation — with the CMB excluded the
GSM2008 value at (0,0) equals the synthesis formula, and the LFSM synthesized
row satisfies the contract. -/
theorem claim_C2_witness :
    (GSM08.generate envTriv m8Triv (FreqsIn.vector [100])).map
      (fun r => r.2.valueAt 0 0) = .ok 12 ∧
    (LFSM.synthRow envTriv mLTriv 100).getD 0 0 =
      envTriv.exp (mLTriv.scaleFunc (envTriv.ln 100)) *
        dotQ (mLTriv.compFuncs.map (fun cf => cf (envTriv.ln 100)))
          (mLTriv.pca_map.getD 0 []) := by
  have hne : (FreqsIn.vector [100]).toList ≠ ([] : List ℚ) := by
    simp [FreqsIn.toList]
  have hpL : 0 < mLTriv.pca_map.length := by
    norm_num [mLTriv, LFSM.init]
  rcases hg : GSM08.generate envTriv m8Triv (FreqsIn.vector [100]) with e | ⟨st, out⟩
  · exfalso
    have hfail : isOk (GSM08.generate envTriv m8Triv (FreqsIn.vector [100])) = false := by
      rw [hg]
      rfl
    obtain ⟨f, hf, hc⟩ := (gsm08_error_iff envTriv m8Triv (FreqsIn.vector [100]) hne).mp hfail
    simp [FreqsIn.toList] at hf
    subst hf
    have hu : m8Triv.freq_unit = FreqUnit.mhz := rfl
    rw [hu] at hc
    norm_num [FreqUnit.toMHz] at hc
  · obtain ⟨hval, hLf⟩ := claim_C2_synthesis_formula envTriv m8Triv mLTriv
      (FreqsIn.vector [100]) st out rfl hg
    constructor
    · have h00 := hval 0 0 (by simp [FreqsIn.toList]) (by norm_num [m8Triv, GSM08.init,
        GSM08.update_interpolants])
      simp only [Except.map]
      rw [h00]
      simp only [m8Triv, GSM08.init, GSM08.update_interpolants, GSM08.build, envTriv,
        FreqsIn.toList, FreqUnit.toMHz, dotQ, col]
      norm_num
    · exact hLf 100 0 hpL

end PyGDSM

namespace PyGDSM

/-- Value of the GSM2008 output at (frequency row, pixel): synthesis formula
plus the CMB constant when included. -/
theorem gsm08_valueAt (env : NumEnv) (m : GSM08.State) (freqs : FreqsIn)
    (st : GSM08.State) (out : GenOut)
    (hok : GSM08.generate env m freqs = .ok (st, out))
    (fi p : ℕ) (hfi : fi < freqs.toList.length) (hp : p < m.pca_map_data.length) :
    out.valueAt fi p =
      (if m.include_cmb then T_CMB else 0) +
      (GSM08.synthRow env m (freqs.toList.getD fi 0 * m.freq_unit.toMHz)).getD p 0 := by
  simp only [GSM08.generate] at hok
  split at hok
  · exact absurd hok (by simp)
  · split at hok
    · exact absurd hok (by simp)
    · rw [Except.ok.injEq, Prod.mk.injEq] at hok
      obtain ⟨-, hout⟩ := hok
      subst hout
      have hlen : (freqs.toList.map (· * m.freq_unit.toMHz)).length = freqs.toList.length :=
        List.length_map _ _
      have hsl : ∀ f : ℚ, (GSM08.synthRow env m f).length = m.pca_map_data.length := by
        intro f
        simp [GSM08.synthRow]
      cases hcmb : m.include_cmb <;>
        simp only [hcmb, Bool.false_eq_true, if_false, if_true] <;>
        by_cases hl : (freqs.toList.map (· * m.freq_unit.toMHz)).length = 1
      · rw [if_pos hl]
        have hfi0 : fi = 0 := by
          rw [hlen] at hl
          omega
        subst hfi0
        have hpos : 0 < freqs.toList.length := by omega
        obtain ⟨f0, hf0⟩ := List.length_eq_one.mp hl
        have hget : freqs.toList.getD 0 0 * m.freq_unit.toMHz = f0 := by
          have h1 : (freqs.toList.map (· * m.freq_unit.toMHz)).getD 0 0 = f0 := by
            rw [hf0]
            rfl
          rwa [getD_map 0 0 freqs.toList _ 0 hpos] at h1
        rw [hf0, hget]
        simp [GenOut.valueAt, GenOut.rows]
      · rw [if_neg hl]
        simp only [GenOut.valueAt, GenOut.rows]
        rw [getD_map 0 [] (freqs.toList.map (· * m.freq_unit.toMHz)) _ fi
            (by rw [hlen]; exact hfi),
          getD_map 0 0 freqs.toList _ fi hfi]
        simp
      · rw [if_pos hl]
        have hfi0 : fi = 0 := by
          rw [hlen] at hl
          omega
        subst hfi0
        have hpos : 0 < freqs.toList.length := by omega
        obtain ⟨f0, hf0⟩ := List.length_eq_one.mp hl
        have hget : freqs.toList.getD 0 0 * m.freq_unit.toMHz = f0 := by
          have h1 : (freqs.toList.map (· * m.freq_unit.toMHz)).getD 0 0 = f0 := by
            rw [hf0]
            rfl
          rwa [getD_map 0 0 freqs.toList _ 0 hpos] at h1
        rw [hf0, hget]
        simp only [List.map_cons, List.map_nil, List.headD_cons, GenOut.valueAt, GenOut.rows,
          List.getD_cons_zero]
        rw [getD_map 0 0 (GSM08.synthRow env m f0) _ p (by rw [hsl]; exact hp)]
        ring
      · rw [if_neg hl]
        simp only [GenOut.valueAt, GenOut.rows]
        rw [getD_map ([] : List ℚ) []
            ((freqs.toList.map (· * m.freq_unit.toMHz)).map (GSM08.synthRow env m)) _ fi
            (by rw [List.length_map, hlen]; exact hfi),
          getD_map 0 [] (freqs.toList.map (· * m.freq_unit.toMHz)) _ fi
            (by rw [hlen]; exact hfi),
          getD_map 0 0 freqs.toList _ fi hfi,
          getD_map 0 0 (GSM08.synthRow env m _) _ p (by rw [hsl]; exact hp)]
        ring

end PyGDSM

namespace PyGDSM

/-- Value of the LFSM output at (frequency row, pixel): regridded synthesized
map, minus the CMB constant when it is not included. -/
theorem lfsm_valueAt (env : NumEnv) (m : LFSM.State) (freqs : FreqsIn)
    (st : LFSM.State) (out : GenOut)
    (hrot : ∀ l, (env.rotCG l).length = l.length)
    (hok : LFSM.generate env m freqs = .ok (st, out))
    (fi p : ℕ) (hfi : fi < freqs.toList.length) (hp : p < m.pca_map.length) :
    out.valueAt fi p =
      (env.rotCG (LFSM.synthRow env m (freqs.toList.getD fi 0 * m.freq_unit.toMHz))).getD p 0 -
      (if m.include_cmb then 0 else T_CMB) := by
  simp only [LFSM.generate] at hok
  split at hok
  · exact absurd hok (by simp)
  · split at hok
    · exact absurd hok (by simp)
    · rw [Except.ok.injEq, Prod.mk.injEq] at hok
      obtain ⟨-, hout⟩ := hok
      subst hout
      have hlen : (freqs.toList.map (· * m.freq_unit.toMHz)).length = freqs.toList.length :=
        List.length_map _ _
      have hsl : ∀ f : ℚ, (env.rotCG (LFSM.synthRow env m f)).length = m.pca_map.length := by
        intro f
        rw [hrot]
        simp [LFSM.synthRow]
      cases hcmb : m.include_cmb <;>
        simp only [hcmb, Bool.false_eq_true, Bool.true_eq_false, eq_self_iff_true,
          if_false, if_true] <;>
        by_cases hl : (freqs.toList.map (· * m.freq_unit.toMHz)).length = 1
      · rw [if_pos hl]
        have hfi0 : fi = 0 := by
          rw [hlen] at hl
          omega
        subst hfi0
        have hpos : 0 < freqs.toList.length := by omega
        obtain ⟨f0, hf0⟩ := List.length_eq_one.mp hl
        have hget : freqs.toList.getD 0 0 * m.freq_unit.toMHz = f0 := by
          have h1 : (freqs.toList.map (· * m.freq_unit.toMHz)).getD 0 0 = f0 := by
            rw [hf0]
            rfl
          rwa [getD_map 0 0 freqs.toList _ 0 hpos] at h1
        rw [hf0, hget]
        simp only [List.map_cons, List.map_nil, List.headD_cons, GenOut.emap, GenOut.valueAt,
          GenOut.rows, List.getD_cons_zero]
        rw [getD_map 0 0 (env.rotCG (LFSM.synthRow env m f0)) _ p (by rw [hsl]; exact hp)]
      · rw [if_neg hl]
        simp only [GenOut.emap, GenOut.valueAt, GenOut.rows]
        rw [getD_map ([] : List ℚ) []
            ((freqs.toList.map (· * m.freq_unit.toMHz)).map
              (fun f => env.rotCG (LFSM.synthRow env m f))) _ fi
            (by rw [List.length_map, hlen]; exact hfi),
          getD_map 0 [] (freqs.toList.map (· * m.freq_unit.toMHz)) _ fi
            (by rw [hlen]; exact hfi),
          getD_map 0 0 freqs.toList _ fi hfi,
          getD_map 0 0 (env.rotCG (LFSM.synthRow env m _)) _ p (by rw [hsl]; exact hp)]
      · rw [if_pos hl]
        have hfi0 : fi = 0 := by
          rw [hlen] at hl
          omega
        subst hfi0
        have hpos : 0 < freqs.toList.length := by omega
        obtain ⟨f0, hf0⟩ := List.length_eq_one.mp hl
        have hget : freqs.toList.getD 0 0 * m.freq_unit.toMHz = f0 := by
          have h1 : (freqs.toList.map (· * m.freq_unit.toMHz)).getD 0 0 = f0 := by
            rw [hf0]
            rfl
          rwa [getD_map 0 0 freqs.toList _ 0 hpos] at h1
        rw [hf0, hget]
        simp [GenOut.valueAt, GenOut.rows]
      · rw [if_neg hl]
        simp only [GenOut.valueAt, GenOut.rows]
        rw [getD_map 0 [] (freqs.toList.map (· * m.freq_unit.toMHz)) _ fi
            (by rw [hlen]; exact hfi),
          getD_map 0 0 freqs.toList _ fi hfi]
        simp

/-- Value of the GSM2016 output at (frequency row, pixel): RING-reordered
synthesized map, plus the CMB term in native MJy/sr when included, times the
per-frequency unit conversion. -/
theorem gsm16_valueAt (env : NumEnv) (m : GSM16.State) (freqs : FreqsIn)
    (st : GSM16.State) (out : GenOut)
    (hre : ∀ l, (env.reorderN2R l).length = l.length)
    (hok : GSM16.generate env m freqs = .ok (st, out))
    (fi p : ℕ) (hfi : fi < freqs.toList.length) (hp : p < (m.map_ni.headD []).length) :
    out.valueAt fi p =
      ((env.reorderN2R (GSM16.synthRow env m
          (freqs.toList.getD fi 0 * m.freq_unit.toGHz))).getD p 0 +
        (if m.include_cmb then
          GSM16.K_CMB2MJysr env GSM16.T (1e9 * (freqs.toList.getD fi 0 * m.freq_unit.toGHz))
         else 0)) *
      GSM16.conversion env m (freqs.toList.getD fi 0 * m.freq_unit.toGHz) := by
  simp only [GSM16.generate] at hok
  split at hok
  · exact absurd hok (by simp)
  · split at hok
    · exact absurd hok (by simp)
    · rw [Except.ok.injEq, Prod.mk.injEq] at hok
      obtain ⟨-, hout⟩ := hok
      subst hout
      have hlen : (freqs.toList.map (· * m.freq_unit.toGHz)).length = freqs.toList.length :=
        List.length_map _ _
      have hsl : ∀ f : ℚ, (env.reorderN2R (GSM16.synthRow env m f)).length =
          (m.map_ni.headD []).length := by
        intro f
        rw [hre]
        simp [GSM16.synthRow]
      have hrowval : ∀ f : ℚ,
          ((if m.include_cmb then
              (env.reorderN2R (GSM16.synthRow env m f)).map
                (· + GSM16.K_CMB2MJysr env GSM16.T (1e9 * f))
            else env.reorderN2R (GSM16.synthRow env m f)).map
            (· * GSM16.conversion env m f)).getD p 0 =
          ((env.reorderN2R (GSM16.synthRow env m f)).getD p 0 +
            (if m.include_cmb then GSM16.K_CMB2MJysr env GSM16.T (1e9 * f) else 0)) *
          GSM16.conversion env m f := by
        intro f
        cases hcmb : m.include_cmb
        · simp only [hcmb, Bool.false_eq_true, if_false]
          rw [getD_map 0 0 (env.reorderN2R (GSM16.synthRow env m f)) _ p
              (by rw [hsl]; exact hp)]
          ring
        · simp only [hcmb, eq_self_iff_true, if_true]
          rw [getD_map 0 0 ((env.reorderN2R (GSM16.synthRow env m f)).map
              (· + GSM16.K_CMB2MJysr env GSM16.T (1e9 * f))) _ p
              (by rw [List.length_map, hsl]; exact hp),
            getD_map 0 0 (env.reorderN2R (GSM16.synthRow env m f)) _ p
              (by rw [hsl]; exact hp)]
      by_cases hl : (freqs.toList.map (· * m.freq_unit.toGHz)).length = 1
      · rw [if_pos hl]
        have hfi0 : fi = 0 := by
          rw [hlen] at hl
          omega
        subst hfi0
        have hpos : 0 < freqs.toList.length := by omega
        obtain ⟨f0, hf0⟩ := List.length_eq_one.mp hl
        have hget : freqs.toList.getD 0 0 * m.freq_unit.toGHz = f0 := by
          have h1 : (freqs.toList.map (· * m.freq_unit.toGHz)).getD 0 0 = f0 := by
            rw [hf0]
            rfl
          rwa [getD_map 0 0 freqs.toList _ 0 hpos] at h1
        rw [hf0, hget]
        simp only [List.map_cons, List.map_nil, List.headD_cons, GenOut.valueAt, GenOut.rows,
          List.getD_cons_zero]
        exact hrowval f0
      · rw [if_neg hl]
        simp only [GenOut.valueAt, GenOut.rows]
        rw [getD_map 0 [] (freqs.toList.map (· * m.freq_unit.toGHz)) _ fi
            (by rw [hlen]; exact hfi),
          getD_map 0 0 freqs.toList _ fi hfi]
        exact hrowval _

end PyGDSM

namespace PyGDSM

/-- `K_CMB2MJysr` is `K` times a frequency-dependent factor, so converting
2.725 K to MJy/sr and back with the `TCMB` conversion factor recovers 2.725
exactly (under the nonvanishing conditions that hold for the real `exp`). -/
theorem K_CMB2MJysr_ratio (env : NumEnv) (nu : ℚ)
    (he1 : env.exp (GSM16.hoverk * nu / GSM16.T) ≠ 1)
    (he0 : env.exp (GSM16.hoverk * nu / GSM16.T) ≠ 0)
    (hnu : nu ≠ 0) :
    GSM16.K_CMB2MJysr env GSM16.T nu * (1 / GSM16.K_CMB2MJysr env 1 nu) = GSM16.T := by
  have hC : (GSM16.C : ℚ) ≠ 0 := by norm_num [GSM16.C]
  have hh : (GSM16.hP : ℚ) ≠ 0 := by norm_num [GSM16.hP]
  have hkB : (GSM16.kB : ℚ) ≠ 0 := by norm_num [GSM16.kB]
  have hT : (GSM16.T : ℚ) ≠ 0 := by norm_num [GSM16.T]
  simp only [GSM16.K_CMB2MJysr]
  have hB : 2 * (GSM16.hP * nu) * (nu / GSM16.C)^2 /
      (env.exp (GSM16.hoverk * nu / GSM16.T) - 1) ≠ 0 := by
    apply div_ne_zero
    · exact mul_ne_zero (mul_ne_zero two_ne_zero (mul_ne_zero hh hnu))
        (pow_ne_zero 2 (div_ne_zero hnu hC))
    · exact sub_ne_zero.mpr he1
  have hcf : (2 * (GSM16.hP * nu) * (nu / GSM16.C)^2 /
        (env.exp (GSM16.hoverk * nu / GSM16.T) - 1) * GSM16.C / nu / GSM16.T)^2 / 2 *
        env.exp (GSM16.hoverk * nu / GSM16.T) / GSM16.kB ≠ 0 := by
    apply div_ne_zero _ hkB
    apply mul_ne_zero _ he0
    apply div_ne_zero _ two_ne_zero
    exact pow_ne_zero 2 (div_ne_zero (div_ne_zero (mul_ne_zero hB hC) hnu) hT)
  set cf := (2 * (GSM16.hP * nu) * (nu / GSM16.C)^2 /
      (env.exp (GSM16.hoverk * nu / GSM16.T) - 1) * GSM16.C / nu / GSM16.T)^2 / 2 *
      env.exp (GSM16.hoverk * nu / GSM16.T) / GSM16.kB with hcfdef
  have h20 : (1e20 : ℚ) ≠ 0 := by norm_num
  field_simp
  ring

end PyGDSM

namespace PyGDSM

/-- C5: at every in-band frequency and pixel, the map generated with the CMB
term included minus the map generated by an otherwise identically configured
model with it excluded equals the constant 2.725 K converted into the model's
output unit: exactly 2.725 for GSM2008 and LFSM (plain K output), and
`K_CMB2MJysr(2.725, ν) · conversion(ν)` for GSM2016 — which is again exactly
2.725 for the `TCMB` output unit. -/
theorem claim_C5_cmb_difference (env : NumEnv)
    (hrot : ∀ l, (env.rotCG l).length = l.length)
    (hre : ∀ l, (env.reorderN2R l).length = l.length)
    (m8 : GSM08.State) (mL : LFSM.State) (m16 : GSM16.State) (freqs : FreqsIn)
    (st1 : GSM08.State) (o1 : GenOut) (st2 : GSM08.State) (o2 : GenOut)
    (sL1 : LFSM.State) (oL1 : GenOut) (sL2 : LFSM.State) (oL2 : GenOut)
    (s161 : GSM16.State) (o161 : GenOut) (s162 : GSM16.State) (o162 : GenOut)
    (h8t : GSM08.generate env { m8 with include_cmb := true } freqs = .ok (st1, o1))
    (h8f : GSM08.generate env { m8 with include_cmb := false } freqs = .ok (st2, o2))
    (hLt : LFSM.generate env { mL with include_cmb := true } freqs = .ok (sL1, oL1))
    (hLf : LFSM.generate env { mL with include_cmb := false } freqs = .ok (sL2, oL2))
    (h16t : GSM16.generate env { m16 with include_cmb := true } freqs = .ok (s161, o161))
    (h16f : GSM16.generate env { m16 with include_cmb := false } freqs = .ok (s162, o162)) :
    (∀ fi p, fi < freqs.toList.length → p < m8.pca_map_data.length →
      o1.valueAt fi p - o2.valueAt fi p = T_CMB) ∧
    (∀ fi p, fi < freqs.toList.length → p < mL.pca_map.length →
      oL1.valueAt fi p - oL2.valueAt fi p = T_CMB) ∧
    (∀ fi p, fi < freqs.toList.length → p < (m16.map_ni.headD []).length →
      o161.valueAt fi p - o162.valueAt fi p =
        GSM16.K_CMB2MJysr env GSM16.T
            (1e9 * (freqs.toList.getD fi 0 * m16.freq_unit.toGHz)) *
          GSM16.conversion env m16 (freqs.toList.getD fi 0 * m16.freq_unit.toGHz)) ∧
    (m16.data_unit = GSM16.DataUnit.tcmb →
      ∀ fi p, fi < freqs.toList.length → p < (m16.map_ni.headD []).length →
        env.exp (GSM16.hoverk * (1e9 * (freqs.toList.getD fi 0 * m16.freq_unit.toGHz)) /
            GSM16.T) ≠ 1 →
        env.exp (GSM16.hoverk * (1e9 * (freqs.toList.getD fi 0 * m16.freq_unit.toGHz)) /
            GSM16.T) ≠ 0 →
        1e9 * (freqs.toList.getD fi 0 * m16.freq_unit.toGHz) ≠ 0 →
        o161.valueAt fi p - o162.valueAt fi p = T_CMB) := by
  have hdiff16 : ∀ fi p, fi < freqs.toList.length → p < (m16.map_ni.headD []).length →
      o161.valueAt fi p - o162.valueAt fi p =
        GSM16.K_CMB2MJysr env GSM16.T
            (1e9 * (freqs.toList.getD fi 0 * m16.freq_unit.toGHz)) *
          GSM16.conversion env m16 (freqs.toList.getD fi 0 * m16.freq_unit.toGHz) := by
    intro fi p hfi hp
    have h1 := gsm16_valueAt env { m16 with include_cmb := true } freqs s161 o161 hre h16t
      fi p hfi hp
    have h2 := gsm16_valueAt env { m16 with include_cmb := false } freqs s162 o162 hre h16f
      fi p hfi hp
    have hs : GSM16.synthRow env { m16 with include_cmb := true } =
        GSM16.synthRow env { m16 with include_cmb := false } := rfl
    have hc1 : GSM16.conversion env { m16 with include_cmb := true } =
        GSM16.conversion env m16 := rfl
    have hc2 : GSM16.conversion env { m16 with include_cmb := false } =
        GSM16.conversion env m16 := rfl
    rw [h1, h2, hs, hc1, hc2]
    simp only [GSM08.State.include_cmb]
    norm_num
    ring
  refine ⟨?_, ?_, hdiff16, ?_⟩
  · intro fi p hfi hp
    have h1 := gsm08_valueAt env { m8 with include_cmb := true } freqs st1 o1 h8t fi p hfi hp
    have h2 := gsm08_valueAt env { m8 with include_cmb := false } freqs st2 o2 h8f fi p hfi hp
    have hs : GSM08.synthRow env { m8 with include_cmb := true } =
        GSM08.synthRow env { m8 with include_cmb := false } := rfl
    rw [h1, h2, hs]
    norm_num
  · intro fi p hfi hp
    have h1 := lfsm_valueAt env { mL with include_cmb := true } freqs sL1 oL1 hrot hLt
      fi p hfi hp
    have h2 := lfsm_valueAt env { mL with include_cmb := false } freqs sL2 oL2 hrot hLf
      fi p hfi hp
    have hs : LFSM.synthRow env { mL with include_cmb := true } =
        LFSM.synthRow env { mL with include_cmb := false } := rfl
    rw [h1, h2, hs]
    norm_num
  · intro hdu fi p hfi hp he1 he0 hnu
    rw [hdiff16 fi p hfi hp]
    have hconv : GSM16.conversion env m16 (freqs.toList.getD fi 0 * m16.freq_unit.toGHz) =
        1 / GSM16.K_CMB2MJysr env 1 (1e9 * (freqs.toList.getD fi 0 * m16.freq_unit.toGHz)) := by
      rw [GSM16.conversion, hdu]
    rw [hconv, K_CMB2MJysr_ratio env _ he1 he0 hnu]
    norm_num [GSM16.T, T_CMB]

end PyGDSM

namespace PyGDSM

/-- Witness for C5: concrete CMB-included minus CMB-excluded differences are
exactly 2.725 for all three models (GSM2016 configured with TCMB output). -/
theorem claim_C5_witness :
    genValueAt (GSM08.generate envTriv { m8Triv with include_cmb := true }
        (FreqsIn.vector [100])) 0 0 -
      genValueAt (GSM08.generate envTriv { m8Triv with include_cmb := false }
        (FreqsIn.vector [100])) 0 0 = T_CMB ∧
    genValueAt (LFSM.generate envTriv { mLTriv with include_cmb := true }
        (FreqsIn.vector [100])) 0 0 -
      genValueAt (LFSM.generate envTriv { mLTriv with include_cmb := false }
        (FreqsIn.vector [100])) 0 0 = T_CMB ∧
    genValueAt (GSM16.generate envTriv { m16Triv with include_cmb := true }
        (FreqsIn.vector [100])) 0 0 -
      genValueAt (GSM16.generate envTriv { m16Triv with include_cmb := false }
        (FreqsIn.vector [100])) 0 0 = T_CMB := by
  have hne : (FreqsIn.vector [100]).toList ≠ ([] : List ℚ) := by
    simp [FreqsIn.toList]
  have hb : ∀ b : Bool, ¬ b = false → b = true := by decide
  have hok8 : ∀ cmb : Bool,
      isOk (GSM08.generate envTriv { m8Triv with include_cmb := cmb }
        (FreqsIn.vector [100])) = true := by
    intro cmb
    apply hb
    intro hf
    obtain ⟨f, hfm, hc⟩ := (gsm08_error_iff envTriv _ (FreqsIn.vector [100]) hne).mp hf
    simp [FreqsIn.toList] at hfm
    subst hfm
    norm_num [FreqUnit.toMHz, show m8Triv.freq_unit = FreqUnit.mhz from rfl] at hc
  have hokL : ∀ cmb : Bool,
      isOk (LFSM.generate envTriv { mLTriv with include_cmb := cmb }
        (FreqsIn.vector [100])) = true := by
    intro cmb
    apply hb
    intro hf
    obtain ⟨f, hfm, hc⟩ := (lfsm_error_iff envTriv _ (FreqsIn.vector [100]) hne).mp hf
    simp [FreqsIn.toList] at hfm
    subst hfm
    norm_num [FreqUnit.toMHz, show mLTriv.freq_unit = FreqUnit.mhz from rfl] at hc
  have hok16 : ∀ cmb : Bool,
      isOk (GSM16.generate envTriv { m16Triv with include_cmb := cmb }
        (FreqsIn.vector [100])) = true := by
    intro cmb
    apply hb
    intro hf
    obtain ⟨f, hfm, hc⟩ := (gsm16_error_iff envTriv _ (FreqsIn.vector [100]) hne).mp hf
    simp [FreqsIn.toList] at hfm
    subst hfm
    norm_num [FreqUnit.toGHz, show m16Triv.freq_unit = FreqUnit.mhz from rfl] at hc
  rcases h8t : GSM08.generate envTriv { m8Triv with include_cmb := true }
      (FreqsIn.vector [100]) with e | ⟨st1, o1⟩
  · have := hok8 true
    rw [h8t] at this
    exact absurd this (by simp [isOk])
  rcases h8f : GSM08.generate envTriv { m8Triv with include_cmb := false }
      (FreqsIn.vector [100]) with e | ⟨st2, o2⟩
  · have := hok8 false
    rw [h8f] at this
    exact absurd this (by simp [isOk])
  rcases hLt : LFSM.generate envTriv { mLTriv with include_cmb := true }
      (FreqsIn.vector [100]) with e | ⟨sL1, oL1⟩
  · have := hokL true
    rw [hLt] at this
    exact absurd this (by simp [isOk])
  rcases hLf : LFSM.generate envTriv { mLTriv with include_cmb := false }
      (FreqsIn.vector [100]) with e | ⟨sL2, oL2⟩
  · have := hokL false
    rw [hLf] at this
    exact absurd this (by simp [isOk])
  rcases h16t : GSM16.generate envTriv { m16Triv with include_cmb := true }
      (FreqsIn.vector [100]) with e | ⟨s161, o161⟩
  · have := hok16 true
    rw [h16t] at this
    exact absurd this (by simp [isOk])
  rcases h16f : GSM16.generate envTriv { m16Triv with include_cmb := false }
      (FreqsIn.vector [100]) with e | ⟨s162, o162⟩
  · have := hok16 false
    rw [h16f] at this
    exact absurd this (by simp [isOk])
  obtain ⟨hd8, hdL, -, hd16⟩ := claim_C5_cmb_difference envTriv
    (fun _ => rfl) (fun _ => rfl) m8Triv mLTriv m16Triv (FreqsIn.vector [100])
    st1 o1 st2 o2 sL1 oL1 sL2 oL2 s161 o161 s162 o162 h8t h8f hLt hLf h16t h16f
  have hfi : (0 : ℕ) < (FreqsIn.vector [100]).toList.length := by
    simp [FreqsIn.toList]
  refine ⟨?_, ?_, ?_⟩
  · have := hd8 0 0 hfi (by norm_num [m8Triv, GSM08.init, GSM08.update_interpolants])
    simpa [genValueAt] using this
  · have := hdL 0 0 hfi (by norm_num [mLTriv, LFSM.init])
    simpa [genValueAt] using this
  · have := hd16 rfl 0 0 hfi (by norm_num [m16Triv])
      (by
        norm_num [envTriv, FreqsIn.toList, FreqUnit.toGHz, GSM16.hoverk, GSM16.hP, GSM16.kB,
          GSM16.T, show m16Triv.freq_unit = FreqUnit.mhz from rfl])
      (by
        norm_num [envTriv, FreqsIn.toList, FreqUnit.toGHz, GSM16.hoverk, GSM16.hP, GSM16.kB,
          GSM16.T, show m16Triv.freq_unit = FreqUnit.mhz from rfl])
      (by norm_num [FreqsIn.toList, FreqUnit.toGHz,
        show m16Triv.freq_unit = FreqUnit.mhz from rfl])
    simpa [genValueAt] using this

end PyGDSM

namespace PyGDSM

/-- C10: `HaslamSkyModel.generate` performs no frequency-bounds validation —
it succeeds for every (positive) frequency list — and returns the stored base
map scaled by `(f / 408)^spectral_index` at each requested frequency (plus
the CMB constant when configured to include it; the stored base map already
has 2.725 K subtracted at load time). -/
theorem claim_C10_haslam_power_law (env : NumEnv) (m : Haslam.State) (freqs : FreqsIn)
    (hpos : ∀ f ∈ freqs.toList, 0 < f) :
    isOk (Haslam.generate env m freqs) = true ∧
    (∀ st out, Haslam.generate env m freqs = .ok (st, out) →
      ∀ fi p, fi < freqs.toList.length → p < m.data.length →
        out.valueAt fi p =
          env.npPow (freqs.toList.getD fi 0 * m.freq_unit.toMHz / 408) m.spectral_index *
            m.data.getD p 0 +
          (if m.include_cmb then T_CMB else 0)) := by
  constructor
  · rfl
  · intro st out hok fi p hfi hp
    simp only [Haslam.generate] at hok
    rw [Except.ok.injEq, Prod.mk.injEq] at hok
    obtain ⟨-, hout⟩ := hok
    subst hout
    have hlen : (freqs.toList.map (· * m.freq_unit.toMHz)).length = freqs.toList.length :=
      List.length_map _ _
    have hrow : ∀ f : ℚ,
        (m.data.map (fun d => env.npPow (f / 408) m.spectral_index * d)).getD p 0 =
          env.npPow (f / 408) m.spectral_index * m.data.getD p 0 :=
      fun f => getD_map 0 0 m.data _ p hp
    cases hcmb : m.include_cmb <;>
      simp only [hcmb, Bool.false_eq_true, eq_self_iff_true, if_false, if_true] <;>
      by_cases hl : (freqs.toList.map (· * m.freq_unit.toMHz)).length = 1
    · rw [if_pos hl]
      have hfi0 : fi = 0 := by
        rw [hlen] at hl
        omega
      subst hfi0
      have hpos0 : 0 < freqs.toList.length := by omega
      obtain ⟨f0, hf0⟩ := List.length_eq_one.mp hl
      have hget : freqs.toList.getD 0 0 * m.freq_unit.toMHz = f0 := by
        have h1 : (freqs.toList.map (· * m.freq_unit.toMHz)).getD 0 0 = f0 := by
          rw [hf0]
          rfl
        rwa [getD_map 0 0 freqs.toList _ 0 hpos0] at h1
      rw [hf0, hget]
      simp only [List.map_cons, List.map_nil, List.headD_cons, GenOut.emap, GenOut.valueAt,
        GenOut.rows, List.getD_cons_zero]
      rw [hrow f0]
      ring
    · rw [if_neg hl]
      simp only [GenOut.emap, GenOut.valueAt, GenOut.rows]
      rw [getD_map 0 [] (freqs.toList.map (· * m.freq_unit.toMHz)) _ fi
          (by rw [hlen]; exact hfi),
        getD_map 0 0 freqs.toList _ fi hfi, hrow]
      ring
    · rw [if_pos hl]
      have hfi0 : fi = 0 := by
        rw [hlen] at hl
        omega
      subst hfi0
      have hpos0 : 0 < freqs.toList.length := by omega
      obtain ⟨f0, hf0⟩ := List.length_eq_one.mp hl
      have hget : freqs.toList.getD 0 0 * m.freq_unit.toMHz = f0 := by
        have h1 : (freqs.toList.map (· * m.freq_unit.toMHz)).getD 0 0 = f0 := by
          rw [hf0]
          rfl
        rwa [getD_map 0 0 freqs.toList _ 0 hpos0] at h1
      rw [hf0, hget]
      simp only [List.map_cons, List.map_nil, List.headD_cons, GenOut.emap, GenOut.valueAt,
        GenOut.rows, List.getD_cons_zero]
      rw [getD_map 0 0 (m.data.map
          (fun d => env.npPow (f0 / 408) m.spectral_index * d)) _ p
          (by rw [List.length_map]; exact hp),
        hrow f0]
    · rw [if_neg hl]
      simp only [GenOut.emap, GenOut.valueAt, GenOut.rows]
      rw [getD_map ([] : List ℚ) []
          ((freqs.toList.map (· * m.freq_unit.toMHz)).map
            (fun f => m.data.map (fun d => env.npPow (f / 408) m.spectral_index * d))) _ fi
          (by rw [List.length_map, hlen]; exact hfi),
        getD_map 0 [] (freqs.toList.map (· * m.freq_unit.toMHz)) _ fi
          (by rw [hlen]; exact hfi),
        getD_map 0 0 freqs.toList _ fi hfi,
        getD_map 0 0 (m.data.map
          (fun d => env.npPow (freqs.toList.getD fi 0 * m.freq_unit.toMHz / 408)
            m.spectral_index * d)) _ p
          (by rw [List.length_map]; exact hp),
        hrow]

/-- Witness for C10: a frequency far outside every other model's band (500
GHz expressed in MHz) succeeds on the Haslam model, and the value is the
power-law-scaled base map. -/
theorem claim_C10_witness :
    isOk (Haslam.generate envTriv mHTriv (FreqsIn.vector [500000])) = true ∧
    genValueAt (Haslam.generate envTriv mHTriv (FreqsIn.vector [500000])) 0 0 = 3 := by
  have h := claim_C10_haslam_power_law envTriv mHTriv (FreqsIn.vector [500000])
    (by
      intro f hf
      simp [FreqsIn.toList] at hf
      subst hf
      norm_num)
  refine ⟨h.1, ?_⟩
  rcases hg : Haslam.generate envTriv mHTriv (FreqsIn.vector [500000]) with e | ⟨st, out⟩
  · have h1 := h.1
    rw [hg] at h1
    exact absurd h1 (by simp [isOk])
  · have hval := h.2 st out hg 0 0 (by simp [FreqsIn.toList])
      (by norm_num [mHTriv])
    simp only [genValueAt]
    rw [hval]
    norm_num [envTriv, mHTriv, FreqsIn.toList,
      show mHTriv.include_cmb = false from rfl]

end PyGDSM

namespace PyGDSM

/-- The successful `GlobalSkyModel.generate` stores the new map and the
originally supplied frequencies, leaving every other field unchanged. -/
theorem gsm08_generate_state_eq (env : NumEnv) (m : GSM08.State) (freqs : FreqsIn)
    (st : GSM08.State) (out : GenOut)
    (hok : GSM08.generate env m freqs = .ok (st, out)) :
    st = { m with generated_map_data := some out, generated_map_freqs := some freqs } := by
  simp only [GSM08.generate] at hok
  split at hok
  · exact absurd hok (by simp)
  · split at hok
    · exact absurd hok (by simp)
    · rw [Except.ok.injEq, Prod.mk.injEq] at hok
      obtain ⟨hst, hout⟩ := hok
      subst hst
      subst hout
      rfl

/-- In-band stored frequencies regenerate successfully on any state sharing
the original frequency unit. -/
theorem gsm08_setter_core (env : NumEnv) (m m1 : GSM08.State) (fqs : FreqsIn)
    (hm1gen : m1.generated_map_freqs = some fqs)
    (hm1fu : m1.freq_unit = m.freq_unit)
    (hne : fqs.toList ≠ [])
    (hin : ∀ f ∈ fqs.toList, 10 ≤ f * m.freq_unit.toMHz ∧ f * m.freq_unit.toMHz ≤ 94000) :
    ∃ st1 out1, GSM08.generate env m1 fqs = .ok (st1, out1) ∧
      st1 = { m1 with generated_map_data := some out1, generated_map_freqs := some fqs } := by
  rcases hg : GSM08.generate env m1 fqs with e | ⟨st1, out1⟩
  · exfalso
    have hfail : isOk (GSM08.generate env m1 fqs) = false := by
      rw [hg]
      rfl
    obtain ⟨f, hf, hc⟩ := (gsm08_error_iff env m1 fqs hne).mp hfail
    rw [hm1fu] at hc
    obtain ⟨hlo, hhi⟩ := hin f hf
    rcases hc with hc | hc <;> linarith
  · exact ⟨st1, out1, rfl, gsm08_generate_state_eq env m1 fqs st1 out1 hg⟩

/-- C7: after `set_basemap` or `set_interpolation_method` on a model that had
already generated a map at in-band frequencies, the interpolant bundle is the
one rebuilt from the new configuration, and the stored generated map equals
exactly what a freshly initialised model with the new configuration produces
at the last-used frequencies (which are re-stored unchanged). -/
theorem claim_C7_setter_rebuild (env : NumEnv) (m : GSM08.State) (fqs : FreqsIn)
    (hstored : m.generated_map_freqs = some fqs)
    (hne : fqs.toList ≠ [])
    (hin : ∀ f ∈ fqs.toList, 10 ≤ f * m.freq_unit.toMHz ∧ f * m.freq_unit.toMHz ≤ 94000) :
    (∀ nb : GSM08.Basemap, ∃ m2,
      GSM08.set_basemap env m nb = .ok m2 ∧
      m2.interp_comps =
        (GSM08.update_interpolants env { m with basemap := nb }).interp_comps ∧
      m2.generated_map_freqs = some fqs ∧
      ∃ stF outF,
        GSM08.generate env (GSM08.init env m.freq_unit nb m.interpolation_method
          m.include_cmb m.h5_component_maps m.h5_components) fqs = .ok (stF, outF) ∧
        m2.generated_map_data = some outF) ∧
    (∀ ni : GSM08.Interp, ∃ m2,
      GSM08.set_interpolation_method env m ni = .ok m2 ∧
      m2.interp_comps =
        (GSM08.update_interpolants env { m with interpolation_method := ni }).interp_comps ∧
      m2.generated_map_freqs = some fqs ∧
      ∃ stF outF,
        GSM08.generate env (GSM08.init env m.freq_unit m.basemap ni
          m.include_cmb m.h5_component_maps m.h5_components) fqs = .ok (stF, outF) ∧
        m2.generated_map_data = some outF) := by
  constructor
  · intro nb
    have hm1gen : (GSM08.update_interpolants env { m with basemap := nb }).generated_map_freqs
        = some fqs := hstored
    obtain ⟨st1, out1, hg, hsteq⟩ := gsm08_setter_core env m
      (GSM08.update_interpolants env { m with basemap := nb }) fqs hm1gen rfl hne hin
    have hsb : GSM08.set_basemap env m nb = .ok st1 := by
      simp only [GSM08.set_basemap, hm1gen, hg, Except.map]
    refine ⟨st1, hsb, ?_, ?_, st1, out1, ?_, ?_⟩
    · rw [hsteq]
    · rw [hsteq]
    · rw [← hg]
      rfl
    · rw [hsteq]
  · intro ni
    have hm1gen : (GSM08.update_interpolants env
        { m with interpolation_method := ni }).generated_map_freqs = some fqs := hstored
    obtain ⟨st1, out1, hg, hsteq⟩ := gsm08_setter_core env m
      (GSM08.update_interpolants env { m with interpolation_method := ni }) fqs hm1gen rfl hne hin
    have hsb : GSM08.set_interpolation_method env m ni = .ok st1 := by
      simp only [GSM08.set_interpolation_method, hm1gen, hg, Except.map]
    refine ⟨st1, hsb, ?_, ?_, st1, out1, ?_, ?_⟩
    · rw [hsteq]
    · rw [hsteq]
    · rw [← hg]
      rfl
    · rw [hsteq]

end PyGDSM

namespace PyGDSM

/-- C7 witness: on the tiny model that has already generated at 100 MHz,
`set_basemap` and `set_interpolation_method` both succeed, and the basemap
setter's stored map is exactly the map a freshly initialised model with the
new basemap produces at the stored frequency. -/
theorem claim_C7_witness :
    isOk (GSM08.set_basemap envTriv m8Gen GSM08.Basemap.wmap) = true ∧
    isOk (GSM08.set_interpolation_method envTriv m8Gen GSM08.Interp.cubic) = true ∧
    setterStored (GSM08.set_basemap envTriv m8Gen GSM08.Basemap.wmap) 0 0 =
      genValueAt (GSM08.generate envTriv
        (GSM08.init envTriv m8Gen.freq_unit GSM08.Basemap.wmap m8Gen.interpolation_method
          m8Gen.include_cmb m8Gen.h5_component_maps m8Gen.h5_components)
        (FreqsIn.vector [100])) 0 0 := by
  have hne : (FreqsIn.vector [100] : FreqsIn).toList ≠ [] := by
    simp [FreqsIn.toList]
  rcases hg0 : GSM08.generate envTriv m8Triv (FreqsIn.vector [100]) with e | ⟨st0, out0⟩
  · exfalso
    have hfail : isOk (GSM08.generate envTriv m8Triv (FreqsIn.vector [100])) = false := by
      rw [hg0]
      rfl
    obtain ⟨f, hfm, hc⟩ := (gsm08_error_iff envTriv m8Triv (FreqsIn.vector [100]) hne).mp hfail
    have hu : m8Triv.freq_unit = FreqUnit.mhz := rfl
    rw [hu] at hc
    simp only [FreqUnit.toMHz, mul_one] at hc
    simp only [FreqsIn.toList, List.mem_singleton] at hfm
    subst hfm
    rcases hc with hc | hc <;> norm_num at hc
  · have hm8 : m8Gen = st0 := by
      simp only [m8Gen, hg0]
    have hsteq := gsm08_generate_state_eq envTriv m8Triv (FreqsIn.vector [100]) st0 out0 hg0
    have hstored : m8Gen.generated_map_freqs = some (FreqsIn.vector [100]) := by
      rw [hm8, hsteq]
    have hfu : m8Gen.freq_unit = FreqUnit.mhz := by
      rw [hm8, hsteq]
      rfl
    have hin : ∀ f ∈ (FreqsIn.vector [100] : FreqsIn).toList,
        10 ≤ f * m8Gen.freq_unit.toMHz ∧ f * m8Gen.freq_unit.toMHz ≤ 94000 := by
      rw [hfu]
      intro f hf
      simp only [FreqsIn.toList, List.mem_singleton] at hf
      subst hf
      norm_num [FreqUnit.toMHz]
    obtain ⟨hbm, hint⟩ :=
      claim_C7_setter_rebuild envTriv m8Gen (FreqsIn.vector [100]) hstored hne hin
    obtain ⟨m2, hsb, hic, hfr, stF, outF, hgF, hst⟩ := hbm GSM08.Basemap.wmap
    obtain ⟨m3, hsb3, -, -, -, -, -, -⟩ := hint GSM08.Interp.cubic
    refine ⟨?_, ?_, ?_⟩
    · rw [hsb]
      rfl
    · rw [hsb3]
      rfl
    · rw [hsb]
      simp only [setterStored, hst, genValueAt, hgF]

end PyGDSM

namespace PyGDSM.Healpix

/-- C8: for every resolution `nside ≥ 1` and pixel index `p < 12·nside²`,
`utils.sky2hpix(nside, utils.hpix2sky(nside, p)) = p`: the healpy RING
pixel → galactic SkyCoord → pixel round trip is the identity. -/
theorem claim_C8_roundtrip (n p : ℕ) (hn : 1 ≤ n) (hp : p < npix n) :
    sky2hpix n (hpix2sky n p) = (p : ℤ) :=
  roundtrip n p hn hp

/-- C8 witness: the round trip at nside = 2 on pixel 13. -/
theorem claim_C8_witness :
    1 ≤ 2 ∧ 13 < npix 2 ∧ sky2hpix 2 (hpix2sky 2 13) = (13 : ℤ) :=
  ⟨by decide, by decide, claim_C8_roundtrip 2 13 (by decide) (by decide)⟩

end PyGDSM.Healpix

namespace PyGDSM

/-- A `generate` call with a genuinely new frequency behaves exactly like a
call with no frequency argument on the state whose sky map and stored
frequency were already updated. -/
theorem observer_freq_step (env : Observer.ObsEnv) (gsm : ℚ → ℕ → ℚ)
    (s : Observer.State) (f : ℚ) (obstime : Option ℚ) (h : Option Observer.HorizonIn)
    (hf : ¬ f = s.freq) :
    Observer.generate env gsm s (some f) obstime h =
      Observer.generate env gsm { s with sky := gsm f, freq := f } none obstime h := by
  simp only [Observer.generate, ne_eq, hf, not_false_eq_true, if_true]

/-- A `generate` call whose frequency argument equals the stored frequency
behaves exactly like a call with no frequency argument. -/
theorem observer_freq_same (env : Observer.ObsEnv) (gsm : ℚ → ℕ → ℚ)
    (s : Observer.State) (f : ℚ) (obstime : Option ℚ) (h : Option Observer.HorizonIn)
    (hf : f = s.freq) :
    Observer.generate env gsm s (some f) obstime h =
      Observer.generate env gsm s none obstime h := by
  subst hf
  simp only [Observer.generate, ne_eq, not_true_eq_false, if_false, ite_self]

/-- When the time is unchanged, an observed sky is cached and the requested
horizon elevation is nonnegative, `BaseObserver.generate` (without frequency
argument) only stores the new horizon elevation and re-applies the CACHED
remap and mask: because the duplicated horizon block resets
`horizon_has_changed` to `False`, no recomputation happens even when the
horizon elevation genuinely changed. -/
theorem observer_no_recompute (env : Observer.ObsEnv) (gsm : ℚ → ℕ → ℚ)
    (s : Observer.State) (obstime : Option ℚ) (h : Option Observer.HorizonIn)
    (htc : Observer.timeChanged obstime s.time = false)
    (hobs : s.observed_sky.isSome = true)
    (hpos : 0 ≤ Observer.effHorizon env h) :
    Observer.generate env gsm s none obstime h =
      ({ s with
          horizon_elevation := Observer.effHorizon env h,
          observed_sky := some (fun p => s.sky (s.pix0.getD id p),
            fun p => s.mask.getD (fun _ => false) (s.pix0.getD id p)) },
        .ok (fun p => s.sky (s.pix0.getD id p),
            fun p => s.mask.getD (fun _ => false) (s.pix0.getD id p))) := by
  obtain ⟨o, ho⟩ := Option.isSome_iff_exists.mp hobs
  obtain ⟨fr, tm, dt, sk, ob, px, mk, ra, dc, hz⟩ := s
  simp only at ho htc
  subst ho
  have hh2 : (if Observer.effHorizon env h = 0 then (0 : ℚ) else Observer.effHorizon env h)
      = Observer.effHorizon env h := by
    by_cases hz0 : Observer.effHorizon env h = 0
    · simp [hz0]
    · simp [hz0]
  by_cases hhz : hz = Observer.effHorizon env h
  · simp [Observer.generate, htc, hh2, hhz, not_lt.mpr hpos]
  · simp [Observer.generate, htc, hh2, hhz, not_lt.mpr hpos]

end PyGDSM

namespace PyGDSM

/-- C3 (as exhibited by the code): with the observation time unchanged and an
observed sky cached, `BaseObserver.generate` NEVER recomputes the pixel-remap
array or the horizon mask — not only when the horizon elevation is unchanged
(as specified) but also when it genuinely changed, because the duplicated
horizon block resets `horizon_has_changed` to `False`.  The cached pair is
reused unchanged and the returned observed sky is the cached remap applied to
the newly requested frequency's sky under the cached (possibly stale) mask. -/
theorem claim_C3_cached_rotation_reuse (env : Observer.ObsEnv) (gsm : ℚ → ℕ → ℚ)
    (s : Observer.State) (freq : Option ℚ) (h : Option Observer.HorizonIn)
    (hobs : s.observed_sky.isSome = true)
    (hpos : 0 ≤ Observer.effHorizon env h) :
    (Observer.generate env gsm s freq none h).1.pix0 = s.pix0 ∧
    (Observer.generate env gsm s freq none h).1.mask = s.mask ∧
    (Observer.generate env gsm s freq none h).1.horizon_elevation =
      Observer.effHorizon env h ∧
    (∀ f, freq = some f → ¬ f = s.freq →
      (Observer.generate env gsm s freq none h).2 =
        .ok (fun p => gsm f (s.pix0.getD id p),
             fun p => s.mask.getD (fun _ => false) (s.pix0.getD id p))) := by
  rcases freq with _ | f
  · rw [observer_no_recompute env gsm s none h rfl hobs hpos]
    refine ⟨rfl, rfl, rfl, ?_⟩
    intro f hf
    exact absurd hf (by simp)
  · by_cases hf : f = s.freq
    · rw [observer_freq_same env gsm s f none h hf,
        observer_no_recompute env gsm s none h rfl hobs hpos]
      refine ⟨rfl, rfl, rfl, ?_⟩
      intro f' hf' hne
      rw [Option.some.injEq] at hf'
      subst hf'
      exact absurd hf hne
    · rw [observer_freq_step env gsm s f none h hf,
        observer_no_recompute env gsm { s with sky := gsm f, freq := f } none h rfl hobs hpos]
      refine ⟨rfl, rfl, rfl, ?_⟩
      intro f' hf' hne
      rw [Option.some.injEq] at hf'
      subst hf'
      rfl

/-- C3 witness: on the cached state (time 0, horizon 0), a call at a new
frequency 60 and a genuinely CHANGED horizon elevation (1 rad) stores the new
horizon but reuses the cached remap and the stale horizon-0 mask. -/
theorem claim_C3_witness :
    obsStateTriv.observed_sky.isSome = true ∧
    0 ≤ Observer.effHorizon obsEnvTriv (some (Observer.HorizonIn.num 1)) ∧
    (Observer.generate obsEnvTriv gsmTriv obsStateTriv (some 60) none
      (some (Observer.HorizonIn.num 1))).1.pix0 = obsStateTriv.pix0 ∧
    (Observer.generate obsEnvTriv gsmTriv obsStateTriv (some 60) none
      (some (Observer.HorizonIn.num 1))).1.mask = obsStateTriv.mask ∧
    (Observer.generate obsEnvTriv gsmTriv obsStateTriv (some 60) none
      (some (Observer.HorizonIn.num 1))).1.horizon_elevation = 1 ∧
    (Observer.generate obsEnvTriv gsmTriv obsStateTriv (some 60) none
      (some (Observer.HorizonIn.num 1))).2 =
      .ok (fun p => gsmTriv 60 (obsStateTriv.pix0.getD id p),
           fun p => obsStateTriv.mask.getD (fun _ => false) (obsStateTriv.pix0.getD id p)) := by
  obtain ⟨ha, hb, hc, hd⟩ := claim_C3_cached_rotation_reuse obsEnvTriv gsmTriv obsStateTriv
    (some 60) (some (Observer.HorizonIn.num 1)) rfl (by norm_num [Observer.effHorizon])
  refine ⟨rfl, by norm_num [Observer.effHorizon], ha, hb, ?_,
    hd 60 rfl (by norm_num [obsStateTriv])⟩
  rw [hc]
  norm_num [Observer.effHorizon]

/-- C9 (amended): omitting the `horizon_elevation` argument does NOT reuse the
stored value — `horizon_elevation or 0.0` resets the stored horizon elevation
to 0 — but this does NOT force a cache recompute: the duplicated second
comparison block re-compares against the already-updated stored value and
resets `horizon_has_changed` to `False`, so (time unchanged, observed sky
cached) the remap and mask are reused as they are. -/
theorem claim_C9_omitted_horizon_reset (env : Observer.ObsEnv) (gsm : ℚ → ℕ → ℚ)
    (s : Observer.State) (hobs : s.observed_sky.isSome = true) :
    (Observer.generate env gsm s none none none).1.horizon_elevation = 0 ∧
    (Observer.generate env gsm s none none none).1.pix0 = s.pix0 ∧
    (Observer.generate env gsm s none none none).1.mask = s.mask ∧
    (Observer.generate env gsm s none none none).2 =
      .ok (fun p => s.sky (s.pix0.getD id p),
           fun p => s.mask.getD (fun _ => false) (s.pix0.getD id p)) := by
  rw [observer_no_recompute env gsm s none none rfl hobs (le_refl 0)]
  exact ⟨rfl, rfl, rfl, rfl⟩

/-- C9 counterexample: stored horizon 0.3 rad with its matching cached
all-`true` mask; a call with all arguments omitted resets the stored horizon
to 0 but keeps the stale mask — it does not equal the mask a recompute at
horizon 0 would have produced. -/
theorem claim_C9_counterexample :
    obsStateTrivH.horizon_elevation = 3/10 ∧
    (Observer.generate obsEnvTriv gsmTriv obsStateTrivH none none none).1.horizon_elevation
      = 0 ∧
    (Observer.generate obsEnvTriv gsmTriv obsStateTrivH none none none).1.mask
      = some (fun _ => true) ∧
    ¬ (Observer.generate obsEnvTriv gsmTriv obsStateTrivH none none none).1.mask
      = some (obsEnvTriv.maskOf obsStateTrivH.time 0) := by
  rw [observer_no_recompute obsEnvTriv gsmTriv obsStateTrivH none none rfl rfl (le_refl 0)]
  refine ⟨rfl, rfl, rfl, ?_⟩
  intro hcon
  have h5 := congrFun (Option.some.inj hcon) 0
  simp only [obsEnvTriv] at h5
  norm_num at h5

/-- C9 witness: the amended behaviour at the concrete nonzero-horizon cached
state. -/
theorem claim_C9_witness :
    obsStateTrivH.observed_sky.isSome = true ∧
    (Observer.generate obsEnvTriv gsmTriv obsStateTrivH none none none).1.horizon_elevation
      = 0 ∧
    (Observer.generate obsEnvTriv gsmTriv obsStateTrivH none none none).1.pix0
      = obsStateTrivH.pix0 ∧
    (Observer.generate obsEnvTriv gsmTriv obsStateTrivH none none none).1.mask
      = obsStateTrivH.mask := by
  obtain ⟨h1, h2, h3, -⟩ := claim_C9_omitted_horizon_reset obsEnvTriv gsmTriv obsStateTrivH rfl
  exact ⟨rfl, h1, h2, h3⟩

/-- C6 (amended): a horizon elevation resolving to a negative angle makes
`generate` raise the validation error before any recomputation, regardless of
whether the value changed, and the cached remap, mask, observed sky and
RA/Dec views are left untouched — but the raise happens AFTER the frequency,
time and horizon mutations: in particular the offending value is stored in
`_horizon_elevation` by the failing call. -/
theorem claim_C6_negative_horizon_error (env : Observer.ObsEnv) (gsm : ℚ → ℕ → ℚ)
    (s : Observer.State) (freq : Option ℚ) (obstime : Option ℚ) (h : Observer.HorizonIn)
    (hneg : Observer.effHorizon env (some h) < 0) :
    (Observer.generate env gsm s freq obstime (some h)).2 =
      .error "Horizon elevation must be greater or equal to 0 degrees" ∧
    (Observer.generate env gsm s freq obstime (some h)).1.pix0 = s.pix0 ∧
    (Observer.generate env gsm s freq obstime (some h)).1.mask = s.mask ∧
    (Observer.generate env gsm s freq obstime (some h)).1.observed_sky = s.observed_sky ∧
    (Observer.generate env gsm s freq obstime (some h)).1.observed_ra = s.observed_ra ∧
    (Observer.generate env gsm s freq obstime (some h)).1.observed_dec = s.observed_dec ∧
    (Observer.generate env gsm s freq obstime (some h)).1.horizon_elevation =
      Observer.effHorizon env (some h) := by
  have key : ∀ s' : Observer.State,
      (Observer.generate env gsm s' none obstime (some h)).2 =
        .error "Horizon elevation must be greater or equal to 0 degrees" ∧
      (Observer.generate env gsm s' none obstime (some h)).1.pix0 = s'.pix0 ∧
      (Observer.generate env gsm s' none obstime (some h)).1.mask = s'.mask ∧
      (Observer.generate env gsm s' none obstime (some h)).1.observed_sky = s'.observed_sky ∧
      (Observer.generate env gsm s' none obstime (some h)).1.observed_ra = s'.observed_ra ∧
      (Observer.generate env gsm s' none obstime (some h)).1.observed_dec = s'.observed_dec ∧
      (Observer.generate env gsm s' none obstime (some h)).1.horizon_elevation =
        Observer.effHorizon env (some h) := by
    intro s'
    obtain ⟨fr, tm, dt, sk, ob, px, mk, ra, dc, hz⟩ := s'
    cases htc : Observer.timeChanged obstime tm
    · by_cases hhz : hz = Observer.effHorizon env (some h)
      · have hneg' : hz < 0 := hhz ▸ hneg
        simp [Observer.generate, htc, hhz, hneg, hneg']
      · simp [Observer.generate, htc, hhz, hneg]
    · by_cases hhz : hz = Observer.effHorizon env (some h)
      · have hneg' : hz < 0 := hhz ▸ hneg
        simp [Observer.generate, htc, hhz, hneg, hneg']
      · simp [Observer.generate, htc, hhz, hneg]
  rcases freq with _ | f
  · exact key s
  · by_cases hf : f = s.freq
    · rw [observer_freq_same env gsm s f obstime (some h) hf]
      exact key s
    · rw [observer_freq_step env gsm s f obstime (some h) hf]
      exact key { s with sky := gsm f, freq := f }

/-- C6 counterexample: the failing call `generate(freq=60,
horizon_elevation=-1)` raises, but first regenerates the delegated sky model
at 60 MHz, stores the new frequency and stores the offending horizon value:
the observer's stored state is NOT left untouched. -/
theorem claim_C6_counterexample :
    isOk (Observer.generate obsEnvTriv gsmTriv obsStateTriv (some 60) none
      (some (Observer.HorizonIn.num (-1)))).2 = false ∧
    (Observer.generate obsEnvTriv gsmTriv obsStateTriv (some 60) none
      (some (Observer.HorizonIn.num (-1)))).1.freq = 60 ∧
    ¬ obsStateTriv.freq = 60 ∧
    (Observer.generate obsEnvTriv gsmTriv obsStateTriv (some 60) none
      (some (Observer.HorizonIn.num (-1)))).1.horizon_elevation = -1 ∧
    ¬ obsStateTriv.horizon_elevation = -1 := by
  norm_num [Observer.generate, Observer.timeChanged, Observer.effHorizon, obsStateTriv,
    gsmTriv, isOk]

/-- C6 witness: the amended behaviour at a concrete negative horizon input. -/
theorem claim_C6_witness :
    Observer.effHorizon obsEnvTriv (some (Observer.HorizonIn.num (-1))) < 0 ∧
    (Observer.generate obsEnvTriv gsmTriv obsStateTriv none none
      (some (Observer.HorizonIn.num (-1)))).2 =
      .error "Horizon elevation must be greater or equal to 0 degrees" ∧
    (Observer.generate obsEnvTriv gsmTriv obsStateTriv none none
      (some (Observer.HorizonIn.num (-1)))).1.pix0 = obsStateTriv.pix0 ∧
    (Observer.generate obsEnvTriv gsmTriv obsStateTriv none none
      (some (Observer.HorizonIn.num (-1)))).1.mask = obsStateTriv.mask := by
  have h := claim_C6_negative_horizon_error obsEnvTriv gsmTriv obsStateTriv none none
    (Observer.HorizonIn.num (-1)) (by norm_num [Observer.effHorizon])
  exact ⟨by norm_num [Observer.effHorizon], h.1, h.2.1, h.2.2.1⟩

end PyGDSM
